import Mathlib

/-!
Verification of the QNET circuit algebra (`qnet/algebra/circuit_algebra.py`).

This file gives a shallow embedding of the circuit-algebra core: the circuit
expression variants, the smart constructors (`SeriesProduct.create`,
`Concatenation.create`, `Feedback.create`, `SeriesInverse.create`,
`CPermutation.create`), their binary rewrite rules, the SLH
(scattering / coupling / Hamiltonian) arithmetic, and feedback reduction.

The repository source for `qnet.algebra.circuit_algebra` is available and is
the authority for every definition below.  The helper modules
`qnet.algebra.abstract_algebra` (the simplification pipeline),
`qnet.algebra.permutations` (permutation utilities) and
`qnet.algebra.operator_algebra` (the scalar/operator entries of SLH matrices)
are not part of the sources; where a definition depends on them it is
modelled from the specification, and its doc comment says so.

Machine arithmetic: the Python code manipulates arbitrary-precision integers
and sympy rationals; these are embedded as `ℕ` / `ℚ` directly.  Python
exceptions are embedded as `Except CErr`.  The fixed-point simplification
loop is bounded by an explicit fuel parameter, following the specification's
design note that the loop must carry a defensive maximum-iteration guard
raising an internal error instead of diverging.
-/

namespace QNET

/-- Sympy-like scalar values that populate the matrices of a concrete SLH
representation.  Modelled from the spec: the scalar/operator algebra is an
external collaborator (`qnet.algebra.operator_algebra` and sympy are not under
the sources) "exposed only as an opaque value type" with addition,
multiplication, adjoint, a zero and a multiplicative identity value.
`zoo` is sympy's complex infinity (the value of `1/0`) and `nan` its
undefined value (the value of `0 * zoo`); symbolic values stay structural. -/
inductive SVal : Type where
  | int (z : ℤ)
  | zoo
  | nan
  | sv (s : String)
  | add (a b : SVal)
  | mul (a b : SVal)
  | neg (a : SVal)
  | inv (a : SVal)
  | adj (a : SVal)
  | im (a : SVal)
deriving DecidableEq, Repr

namespace SVal

/-- Sympy-style automatic addition: numbers collapse, `nan` absorbs,
`zoo + zoo = nan`, adding zero is the identity, anything else is structural. -/
def sAdd : SVal → SVal → SVal
  | nan, _ => nan
  | _, nan => nan
  | zoo, zoo => nan
  | zoo, _ => zoo
  | _, zoo => zoo
  | int a, int b => int (a + b)
  | int a, y => if a = 0 then y else add (int a) y
  | x, int b => if b = 0 then x else add x (int b)
  | x, y => add x y

/-- Sympy-style automatic multiplication: numbers collapse, `nan` absorbs,
`0 * zoo = nan`, `0 * x = 0` and `1 * x = x` for symbolic `x`. -/
def sMul : SVal → SVal → SVal
  | nan, _ => nan
  | _, nan => nan
  | zoo, zoo => zoo
  | zoo, int b => if b = 0 then nan else zoo
  | int a, zoo => if a = 0 then nan else zoo
  | zoo, y => mul zoo y
  | x, zoo => mul x zoo
  | int a, int b => int (a * b)
  | int a, y => if a = 0 then int 0 else if a = 1 then y else mul (int a) y
  | x, int b => if b = 0 then int 0 else if b = 1 then x else mul x (int b)
  | x, y => mul x y

/-- Sympy-style negation. -/
def sNeg : SVal → SVal
  | int a => int (-a)
  | zoo => zoo
  | nan => nan
  | x => neg x

/-- Sympy-style subtraction. -/
def sSub (a b : SVal) : SVal := sAdd a (sNeg b)

/-- Sympy-style multiplicative inverse: `1/0` is complex infinity `zoo`,
`1/zoo` is `0`; no exception is ever raised.  A non-unit number keeps a
structural inverse (sympy would keep an exact rational). -/
def sInv : SVal → SVal
  | int a => if a = 0 then zoo else if a = 1 then int 1
      else if a = -1 then int (-1) else inv (int a)
  | zoo => int 0
  | nan => nan
  | x => inv x

/-- Sympy-style division. -/
def sDiv (a b : SVal) : SVal := sMul a (sInv b)

/-- Imaginary part of a scalar value.  Modelled from the spec: the opaque
scalar algebra's `Im` (`qnet.algebra.operator_algebra.Im` / `ImAdjoint` are
not under the sources); on a real number it is zero, on sympy's `zoo` it is
`nan`, on a symbolic value it stays structural. -/
def sIm : SVal → SVal
  | int _ => int 0
  | zoo => nan
  | nan => nan
  | x => im x

/-- Adjoint (complex conjugate) of a scalar value; real numbers are fixed. -/
def sAdj : SVal → SVal
  | int a => int a
  | nan => nan
  | x => adj x

end SVal

/-- Matrices of scalar values (`qnet.algebra.operator_algebra.Matrix`
restricted to the scalar fragment), as a list of rows. -/
abbrev Mat : Type := List (List SVal)

namespace Mat

/-- Transpose of a list-of-rows matrix with the given column count. -/
def transposeN (cols : ℕ) (m : Mat) : Mat :=
  (List.range cols).map (fun j => m.map (fun r => (r.get? j).getD (SVal.int 0)))

/-- Number of columns, read off the first row. -/
def colsOf (m : Mat) : ℕ := ((m.head?).map List.length).getD 0

/-- Dot product of two rows, summed with sympy addition starting from zero. -/
def dot (r c : List SVal) : SVal :=
  (List.zipWith SVal.sMul r c).foldl SVal.sAdd (SVal.int 0)

/-- Matrix product; the row count of the result equals the row count of the
left factor by construction. -/
def mul (a b : Mat) : Mat :=
  a.map (fun r => (transposeN (colsOf b) b).map (fun c => dot r c))

/-- Entrywise matrix sum. -/
def addM (a b : Mat) : Mat := List.zipWith (List.zipWith SVal.sAdd) a b

/-- Multiply every entry by a scalar on the right (`Matrix * scalar`). -/
def smulR (a : Mat) (c : SVal) : Mat := a.map (fun r => r.map (fun x => SVal.sMul x c))

/-- Entrywise negation. -/
def negM (a : Mat) : Mat := a.map (fun r => r.map SVal.sNeg)

/-- Conjugate transpose. -/
def adjointM (a : Mat) : Mat :=
  (transposeN (colsOf a) a).map (fun r => r.map SVal.sAdj)

/-- Entry at row `i`, column `j` (zero when out of range). -/
def entry (a : Mat) (i j : ℕ) : SVal := (((a.get? i).getD []).get? j).getD (SVal.int 0)

/-- Zero matrix of the given shape (`zerosm`). -/
def zerosM (r c : ℕ) : Mat := List.replicate r (List.replicate c (SVal.int 0))

/-- Identity matrix (`identity_matrix`). -/
def identityM (n : ℕ) : Mat :=
  (List.range n).map (fun i => (List.range n).map (fun j => if i = j then SVal.int 1 else SVal.int 0))

/-- `block_matrix A B C D`: the 2×2 block matrix `[[A, B], [C, D]]`. -/
def blockM (a b c d : Mat) : Mat :=
  (List.zipWith (· ++ ·) a b) ++ (List.zipWith (· ++ ·) c d)

/-- Keep the first `n` rows (`M[:n]`). -/
def takeRows (a : Mat) (n : ℕ) : Mat := a.take n

/-- Drop the first `n` rows (`M[n:]`). -/
def dropRows (a : Mat) (n : ℕ) : Mat := a.drop n

/-- Keep the first `n` columns of every row (`M[:, :n]`). -/
def takeCols (a : Mat) (n : ℕ) : Mat := a.map (fun r => r.take n)

/-- Drop the first `n` columns of every row (`M[:, n:]`). -/
def dropCols (a : Mat) (n : ℕ) : Mat := a.map (fun r => r.drop n)

/-- Entrywise imaginary part.  Modelled from the spec: `Im` / `ImAdjoint` on a
matrix (the operator-algebra module is not under the sources) is the
operator-valued imaginary part taken entrywise; on the 1×1 matrices the
circuit algebra extracts from, this is the imaginary part of the entry. -/
def imM (a : Mat) : Mat := a.map (fun r => r.map SVal.sIm)

end Mat

/-- The closed set of circuit expression variants
(`Circuit` subclasses in `circuit_algebra.py`):
concrete SLH representation, circuit symbol, the single-channel identity
`CIdentity`, the zero-channel circuit `CircuitZero`, series product,
concatenation, channel permutation, feedback, and formal series inverse.
The `ABCD` variant of the source is omitted: no claim concerns it and its
rewrite rules delegate to methods that are not implemented for it. -/
inductive Circuit : Type where
  | slh (S L : Mat) (H : SVal)
  | sym (name : String) (n : ℕ)
  | cid1
  | czero
  | series (ops : List Circuit)
  | concat (ops : List Circuit)
  | cperm (p : List ℕ)
  | fb (c : Circuit) (outIdx inIdx : ℕ)
  | sinv (c : Circuit)
deriving Repr

mutual

/-- Structural equality of circuit expressions (Python `Expression.__eq__`
compares the operation class and the operand tuple). -/
def cbeq : Circuit → Circuit → Bool
  | .slh S1 L1 H1, .slh S2 L2 H2 =>
      decide (S1 = S2) && decide (L1 = L2) && decide (H1 = H2)
  | .sym a1 n1, .sym a2 n2 => decide (a1 = a2) && decide (n1 = n2)
  | .cid1, .cid1 => true
  | .czero, .czero => true
  | .series xs, .series ys => cbeqList xs ys
  | .concat xs, .concat ys => cbeqList xs ys
  | .cperm p1, .cperm p2 => decide (p1 = p2)
  | .fb c1 o1 i1, .fb c2 o2 i2 =>
      cbeq c1 c2 && decide (o1 = o2) && decide (i1 = i2)
  | .sinv c1, .sinv c2 => cbeq c1 c2
  | _, _ => false

/-- Structural equality of operand lists. -/
def cbeqList : List Circuit → List Circuit → Bool
  | [], [] => true
  | x :: xs, y :: ys => cbeq x y && cbeqList xs ys
  | _, _ => false

end

mutual

theorem cbeq_iff : ∀ (a b : Circuit), cbeq a b = true ↔ a = b
  | .slh _ _ _, .slh _ _ _ => by simp [cbeq, and_assoc]
  | .sym _ _, .sym _ _ => by simp [cbeq]
  | .cid1, .cid1 => by simp [cbeq]
  | .czero, .czero => by simp [cbeq]
  | .series xs, .series ys => by
      have h := cbeqList_iff xs ys
      simp only [cbeq, h]
      simp
  | .concat xs, .concat ys => by
      have h := cbeqList_iff xs ys
      simp only [cbeq, h]
      simp
  | .cperm _, .cperm _ => by simp [cbeq]
  | .fb c1 _ _, .fb c2 _ _ => by
      have h := cbeq_iff c1 c2
      simp only [cbeq, Bool.and_eq_true, h]
      simp [and_assoc]
  | .sinv c1, .sinv c2 => by
      have h := cbeq_iff c1 c2
      simp only [cbeq, h]
      simp
  | .slh _ _ _, .sym _ _ => by simp [cbeq]
  | .slh _ _ _, .cid1 => by simp [cbeq]
  | .slh _ _ _, .czero => by simp [cbeq]
  | .slh _ _ _, .series _ => by simp [cbeq]
  | .slh _ _ _, .concat _ => by simp [cbeq]
  | .slh _ _ _, .cperm _ => by simp [cbeq]
  | .slh _ _ _, .fb _ _ _ => by simp [cbeq]
  | .slh _ _ _, .sinv _ => by simp [cbeq]
  | .sym _ _, .slh _ _ _ => by simp [cbeq]
  | .sym _ _, .cid1 => by simp [cbeq]
  | .sym _ _, .czero => by simp [cbeq]
  | .sym _ _, .series _ => by simp [cbeq]
  | .sym _ _, .concat _ => by simp [cbeq]
  | .sym _ _, .cperm _ => by simp [cbeq]
  | .sym _ _, .fb _ _ _ => by simp [cbeq]
  | .sym _ _, .sinv _ => by simp [cbeq]
  | .cid1, .slh _ _ _ => by simp [cbeq]
  | .cid1, .sym _ _ => by simp [cbeq]
  | .cid1, .czero => by simp [cbeq]
  | .cid1, .series _ => by simp [cbeq]
  | .cid1, .concat _ => by simp [cbeq]
  | .cid1, .cperm _ => by simp [cbeq]
  | .cid1, .fb _ _ _ => by simp [cbeq]
  | .cid1, .sinv _ => by simp [cbeq]
  | .czero, .slh _ _ _ => by simp [cbeq]
  | .czero, .sym _ _ => by simp [cbeq]
  | .czero, .cid1 => by simp [cbeq]
  | .czero, .series _ => by simp [cbeq]
  | .czero, .concat _ => by simp [cbeq]
  | .czero, .cperm _ => by simp [cbeq]
  | .czero, .fb _ _ _ => by simp [cbeq]
  | .czero, .sinv _ => by simp [cbeq]
  | .series _, .slh _ _ _ => by simp [cbeq]
  | .series _, .sym _ _ => by simp [cbeq]
  | .series _, .cid1 => by simp [cbeq]
  | .series _, .czero => by simp [cbeq]
  | .series _, .concat _ => by simp [cbeq]
  | .series _, .cperm _ => by simp [cbeq]
  | .series _, .fb _ _ _ => by simp [cbeq]
  | .series _, .sinv _ => by simp [cbeq]
  | .concat _, .slh _ _ _ => by simp [cbeq]
  | .concat _, .sym _ _ => by simp [cbeq]
  | .concat _, .cid1 => by simp [cbeq]
  | .concat _, .czero => by simp [cbeq]
  | .concat _, .series _ => by simp [cbeq]
  | .concat _, .cperm _ => by simp [cbeq]
  | .concat _, .fb _ _ _ => by simp [cbeq]
  | .concat _, .sinv _ => by simp [cbeq]
  | .cperm _, .slh _ _ _ => by simp [cbeq]
  | .cperm _, .sym _ _ => by simp [cbeq]
  | .cperm _, .cid1 => by simp [cbeq]
  | .cperm _, .czero => by simp [cbeq]
  | .cperm _, .series _ => by simp [cbeq]
  | .cperm _, .concat _ => by simp [cbeq]
  | .cperm _, .fb _ _ _ => by simp [cbeq]
  | .cperm _, .sinv _ => by simp [cbeq]
  | .fb _ _ _, .slh _ _ _ => by simp [cbeq]
  | .fb _ _ _, .sym _ _ => by simp [cbeq]
  | .fb _ _ _, .cid1 => by simp [cbeq]
  | .fb _ _ _, .czero => by simp [cbeq]
  | .fb _ _ _, .series _ => by simp [cbeq]
  | .fb _ _ _, .concat _ => by simp [cbeq]
  | .fb _ _ _, .cperm _ => by simp [cbeq]
  | .fb _ _ _, .sinv _ => by simp [cbeq]
  | .sinv _, .slh _ _ _ => by simp [cbeq]
  | .sinv _, .sym _ _ => by simp [cbeq]
  | .sinv _, .cid1 => by simp [cbeq]
  | .sinv _, .czero => by simp [cbeq]
  | .sinv _, .series _ => by simp [cbeq]
  | .sinv _, .concat _ => by simp [cbeq]
  | .sinv _, .cperm _ => by simp [cbeq]
  | .sinv _, .fb _ _ _ => by simp [cbeq]

theorem cbeqList_iff : ∀ (as bs : List Circuit), cbeqList as bs = true ↔ as = bs
  | [], [] => by simp [cbeqList]
  | x :: xs, y :: ys => by
      have h1 := cbeq_iff x y
      have h2 := cbeqList_iff xs ys
      simp only [cbeqList, Bool.and_eq_true, h1, h2]
      simp
  | [], _ :: _ => by simp [cbeqList]
  | _ :: _, [] => by simp [cbeqList]

end

instance : DecidableEq Circuit :=
  fun a b => decidable_of_iff (cbeq a b = true) (cbeq_iff a b)

namespace Circuit

/-- Channel dimension (`Circuit.cdim`): rows of `S` for an SLH triple, the
declared dimension of a symbol, first operand for a series product, the sum
of the operands for a concatenation, the length of the image tuple for a
permutation, one less than the operand for feedback, the operand's dimension
for a series inverse. -/
def cdim : Circuit → ℕ
  | slh S _ _ => S.length
  | sym _ n => n
  | cid1 => 1
  | czero => 0
  | series [] => 0
  | series (c :: _) => cdim c
  | concat ops => cdimList ops
  | cperm p => p.length
  | fb c _ _ => cdim c - 1
  | sinv c => cdim c
where
  /-- Sum of channel dimensions of a list of operands. -/
  cdimList : List Circuit → ℕ
  | [] => 0
  | c :: cs => cdim c + cdimList cs

end Circuit

/-- `circuit_identity n` (`cid`): the zero-channel circuit for `n = 0`,
`CIdentity` for `n = 1`, and a concatenation of `n` single-channel
identities otherwise. -/
def cid (n : ℕ) : Circuit :=
  if n = 0 then Circuit.czero
  else if n = 1 then Circuit.cid1
  else Circuit.concat (List.replicate n Circuit.cid1)

/-- `check_permutation`.  Modelled from the spec: a channel permutation is
"a bijection on `{0,…,n-1}` given as an image tuple"
(`qnet.algebra.permutations.check_permutation` is not under the sources):
the image tuple must be a rearrangement of `(0, …, n-1)`. -/
def checkPermutation (p : List ℕ) : Bool :=
  decide (List.Perm p (List.range p.length))

/-- `invert_permutation`.  Modelled from the spec: the inverse bijection of an
image tuple (`qnet.algebra.permutations.invert_permutation` is not under the
sources): position `i` of the inverse holds the index at which `p` attains
`i`. -/
def invertPermutation (p : List ℕ) : List ℕ :=
  (List.range p.length).map (fun i => p.indexOf i)

/-- Key of the maximal leading block of an image tuple: the least `k ≥ 1`
such that the first `k` images stay below `k` (and so form a block closed
under the permutation). -/
def psfbKey (p : List ℕ) : Option ℕ :=
  (List.range p.length).find?
    (fun k => decide (k ≠ 0) && (p.take k).all (fun x => decide (x < k)))

/-- Split an image tuple into its maximal leading block: the shortest
non-empty prefix that maps onto its own index range, paired with the rest. -/
def permSplitFirstBlock (p : List ℕ) : List ℕ × List ℕ :=
  match psfbKey p with
  | some k => (p.take k, p.drop k)
  | none => (p, [])

theorem permSplitFirstBlock_lengths (p : List ℕ) :
    (permSplitFirstBlock p).1.length + (permSplitFirstBlock p).2.length
      = p.length := by
  unfold permSplitFirstBlock
  rcases hfind : psfbKey p with _ | k
  · simp
  · simp only [List.length_take, List.length_drop]
    omega

theorem permSplitFirstBlock_fst_length (p : List ℕ) (hp : p ≠ []) :
    (permSplitFirstBlock p).1.length ≠ 0 := by
  unfold permSplitFirstBlock
  rcases hfind : psfbKey p with _ | k
  · simpa using hp
  · have hk := List.find?_some hfind
    simp only [Bool.and_eq_true, decide_eq_true_eq, ne_eq] at hk
    have hk0 : k ≠ 0 := hk.1
    simp only [List.length_take]
    have hmem : k ∈ List.range p.length := List.mem_of_find?_eq_some hfind
    have hklt : k < p.length := List.mem_range.mp hmem
    omega

theorem permSplitFirstBlock_snd_lt (p : List ℕ) (hp : p ≠ []) :
    (permSplitFirstBlock p).2.length < p.length := by
  have h1 := permSplitFirstBlock_fst_length p hp
  have h2 := permSplitFirstBlock_lengths p
  omega

/-- Block splitting loop with an explicit step bound (every step removes a
non-empty leading block, so `p.length` steps always suffice). -/
def permBlocksAux : (steps : ℕ) → List ℕ → List (List ℕ)
  | 0, _ => []
  | steps + 1, p =>
    if p = [] then []
    else
      (permSplitFirstBlock p).1 ::
        permBlocksAux steps ((permSplitFirstBlock p).2.map
          (fun x => x - (permSplitFirstBlock p).1.length))

/-- `permutation_to_block_permutations`.  Modelled from the spec: a
permutation decomposes into "block permutations — maximal contiguous ranges
mapped onto themselves as a set"
(`qnet.algebra.permutations.permutation_to_block_permutations` is not under
the sources); each block is returned re-based to start at zero. -/
def permBlocks (p : List ℕ) : List (List ℕ) := permBlocksAux p.length p

theorem permBlocksAux_sum_length (steps : ℕ) : ∀ (p : List ℕ),
    p.length ≤ steps → ((permBlocksAux steps p).map List.length).sum = p.length := by
  induction steps with
  | zero =>
      intro p hp
      have : p = [] := List.length_eq_zero.mp (Nat.le_zero.mp hp)
      subst this
      simp [permBlocksAux]
  | succ steps ih =>
      intro p hp
      rw [permBlocksAux]
      by_cases he : p = []
      · simp [he]
      · simp only [if_neg he, List.map_cons, List.sum_cons]
        have h1 := permSplitFirstBlock_fst_length p he
        have h2 := permSplitFirstBlock_lengths p
        have hlen : ((permSplitFirstBlock p).2.map
            (fun x => x - (permSplitFirstBlock p).1.length)).length ≤ steps := by
          simp only [List.length_map]
          omega
        rw [ih _ hlen]
        simp only [List.length_map]
        omega

theorem permBlocks_sum_length (p : List ℕ) :
    ((permBlocks p).map List.length).sum = p.length :=
  permBlocksAux_sum_length p.length p le_rfl

/-- Block structure of a circuit (`Circuit.block_structure`): a concatenation
exposes the concatenated block structures of its operands, a channel
permutation the lengths of its maximal block permutations, and every other
variant is a single block of its full channel dimension. -/
def blockStructure : Circuit → List ℕ
  | .concat ops => bsList ops
  | .cperm p => (permBlocks p).map List.length
  | c => [c.cdim]
where
  /-- Concatenated block structures of a list of operands. -/
  bsList : List Circuit → List ℕ
  | [] => []
  | c :: cs => blockStructure c ++ bsList cs

/-- The Python exceptions that the circuit algebra can raise, plus the
internal-invariant error of the defensive iteration guard that the
specification requires around the fixed-point simplification loop. -/
inductive CErr : Type where
  | valueError
  | wrongCDim
  | badPermutation
  | incompatibleBlocks
  | algebraError
  | stopIteration
  | fuelExhausted
deriving DecidableEq, Repr

mutual

theorem blockStructure_sum : ∀ (c : Circuit), (blockStructure c).sum = c.cdim
  | .concat ops => by
      show (blockStructure.bsList ops).sum = Circuit.cdim.cdimList ops
      exact bsList_sum ops
  | .cperm p => by
      show ((permBlocks p).map List.length).sum = p.length
      exact permBlocks_sum_length p
  | .slh S L H => by simp [blockStructure]
  | .sym s n => by simp [blockStructure]
  | .cid1 => by simp [blockStructure]
  | .czero => by simp [blockStructure]
  | .series ops => by simp [blockStructure]
  | .fb c o i => by simp [blockStructure]
  | .sinv c => by simp [blockStructure]

theorem bsList_sum : ∀ (ops : List Circuit),
    (blockStructure.bsList ops).sum = Circuit.cdim.cdimList ops
  | [] => by simp [blockStructure.bsList, Circuit.cdim.cdimList]
  | c :: cs => by
      simp only [blockStructure.bsList, Circuit.cdim.cdimList, List.sum_append]
      rw [blockStructure_sum c, bsList_sum cs]

end

/-- `CPermutation.series_with_permutation` image computation: the composite
image tuple is the pointwise application `i ↦ left[right[i]]` (out-of-range
indices, impossible for valid permutations, read as zero). -/
def composePerm (p q : List ℕ) : List ℕ := q.map (fun j => p.getD j 0)

/-- `concatenate_permutations`.  Modelled from the spec: concatenating two
bijections shifts "the right operand's images ... by the left operand's
`cdim`" (`qnet.algebra.permutations.concatenate_permutations` is not under
the sources). -/
def concatenatePermutations (p q : List ℕ) : List ℕ :=
  p ++ q.map (fun x => x + p.length)

/-- `CPermutation.create`: reject image tuples that are not bijections on
their index range (`BadPermutationError`), collapse the identity tuple to the
identity circuit, and otherwise build a permutation node. -/
def permCreate (p : List ℕ) : Except CErr Circuit :=
  if ¬ checkPermutation p then .error .badPermutation
  else if p = List.range p.length then .ok (cid p.length)
  else .ok (.cperm p)

/-- First step of `map_signals`: check each mapped value is below `n` and
delete it from the free-value pool (`list.remove` deletes the first
occurrence and raises if the value is absent). -/
def removeValue : List ℕ → ℕ → Except CErr (List ℕ)
  | [], _ => .error .valueError
  | x :: xs, v =>
      if x = v then .ok xs
      else match removeValue xs v with
        | .error e => .error e
        | .ok r => .ok (x :: r)

/-- The free-value pool of `map_signals` after removing all mapped values. -/
def mapSignalsFree (vals : List ℕ) (n : ℕ) : Except CErr (List ℕ) :=
  vals.foldlM
    (fun free v => if n ≤ v then .error .valueError else removeValue free v)
    (List.range n)

/-- Final step of `map_signals`: walk `k = 0, …, n-1`, emitting the mapped
image when `k` is a key and otherwise popping the next free value. -/
def msBuild (mapping : List (ℕ × ℕ)) : List ℕ → List ℕ → Except CErr (List ℕ)
  | [], _ => .ok []
  | k :: ks, free =>
      match mapping.lookup k with
      | some v =>
          match msBuild mapping ks free with
          | .error e => .error e
          | .ok rest => .ok (v :: rest)
      | none =>
          match free with
          | [] => .error .valueError
          | f :: fs =>
              match msBuild mapping ks fs with
              | .error e => .error e
              | .ok rest => .ok (f :: rest)

/-- `map_signals`: the permutation image tuple realising the given
input-to-output index mapping while keeping all other channels in relative
order; keys or values at or above `n` raise `ValueError`. -/
def mapSignals (mapping : List (ℕ × ℕ)) (n : ℕ) : Except CErr (List ℕ) :=
  match mapSignalsFree (mapping.map Prod.snd) n with
  | .error e => .error e
  | .ok free =>
      if (mapping.map Prod.fst).any (fun k => n ≤ k) then .error .valueError
      else msBuild mapping (List.range n) free

/-- `map_signals_circuit`: the channel-permutation circuit for `map_signals`. -/
def mapSignalsCircuit (mapping : List (ℕ × ℕ)) (n : ℕ) : Except CErr Circuit :=
  match mapSignals mapping n with
  | .error e => .error e
  | .ok p => permCreate p

/-- `SLH.series_with_slh`: the series fold of a downstream triple
`(S₁, L₁, H₁)` with an upstream triple `(S₂, L₂, H₂)`:
`S = S₁·S₂`, `L = S₁·L₂ + L₁`, and `H = H₁ + H₂ + δ` where `δ` is the `[0,0]`
entry of `ImAdjoint(L₁† · S₁ · L₂)`. -/
def seriesWithSLH (S1 L1 : Mat) (H1 : SVal) (S2 L2 : Mat) (H2 : SVal) : Circuit :=
  let newS := Mat.mul S1 S2
  let newL := Mat.addM (Mat.mul S1 L2) L1
  let delta := Mat.imM (Mat.mul (Mat.mul (Mat.adjointM L1) S1) L2)
  Circuit.slh newS newL (SVal.sAdd (SVal.sAdd H1 H2) (Mat.entry delta 0 0))

/-- `SLH.concatenate_slh`: block-diagonal scattering matrix with explicit
zero off-diagonal blocks, stacked coupling vector, summed Hamiltonian. -/
def concatenateSLH (S1 L1 : Mat) (H1 : SVal) (S2 L2 : Mat) (H2 : SVal) : Circuit :=
  let newS := Mat.blockM S1 (Mat.zerosM S1.length (Mat.colsOf S2))
    (Mat.zerosM S2.length (Mat.colsOf S1)) S2
  Circuit.slh newS (L1 ++ L2) (SVal.sAdd H1 H2)

/-- `permutation_matrix`.  Modelled from the spec: the scattering matrix of a
routing circuit sends input `j` to output `σ(j)`
(`qnet.algebra.operator_algebra.permutation_matrix` is not under the
sources): entry `(σ(j), j)` is one. -/
def permMatrix (p : List ℕ) : Mat :=
  (List.range p.length).map (fun r =>
    (List.range p.length).map (fun c =>
      if p.getD c 0 = r then SVal.int 1 else SVal.int 0))

/-- `toSLH` of a routing circuit (`CPermutation._toSLH`, and the fold of
identity channels for `cid n`): permutation scattering matrix or identity
matrix, zero coupling, zero Hamiltonian. -/
def routeToSLH : Circuit → Circuit
  | .cperm p => .slh (permMatrix p) (Mat.zerosM p.length 1) (SVal.int 0)
  | c => .slh (Mat.identityM c.cdim) (Mat.zerosM c.cdim 1) (SVal.int 0)

/-- Inner walk of `get_common_block_structure`, with an explicit step bound
(each step consumes one block, so the combined length of the remainders
always suffices): starting from partial sums `la` and `ra`, extend the
shorter side until the sums agree, returning the common sum and the
unconsumed remainders of both structures. -/
def gcbsEat : (steps : ℕ) → (ls rs : List ℕ) → (la ra : ℕ) →
    Except CErr (ℕ × List ℕ × List ℕ)
  | 0, _, _, _, _ => .error .fuelExhausted
  | steps + 1, ls, rs, la, ra =>
    if la = ra then .ok (la, ls, rs)
    else if la < ra then
      match ls with
      | [] => .error .algebraError
      | x :: xs => gcbsEat steps xs rs (la + x) ra
    else
      match rs with
      | [] => .error .algebraError
      | y :: ys => gcbsEat steps ls ys la (ra + y)

theorem gcbsEat_len (steps : ℕ) : ∀ (ls rs : List ℕ) (la ra s : ℕ) (l2 r2 : List ℕ),
    gcbsEat steps ls rs la ra = .ok (s, l2, r2) →
      l2.length ≤ ls.length ∧ r2.length ≤ rs.length := by
  induction steps with
  | zero =>
      intro ls rs la ra s l2 r2 h
      cases h
  | succ steps ih =>
      intro ls rs la ra s l2 r2 h
      rw [gcbsEat.eq_def] at h
      by_cases h1 : la = ra
      · simp only [if_pos h1, Except.ok.injEq, Prod.mk.injEq] at h
        rcases h with ⟨_, h2, h3⟩
        subst h2
        subst h3
        exact ⟨le_rfl, le_rfl⟩
      · simp only [if_neg h1] at h
        by_cases h2 : la < ra
        · simp only [if_pos h2] at h
          match ls, h with
          | [], h => cases h
          | x :: xs, h =>
              have := ih xs rs (la + x) ra s l2 r2 h
              exact ⟨le_trans this.1 (Nat.le_succ _), this.2⟩
        · simp only [if_neg h2] at h
          match rs, h with
          | [], h => cases h
          | y :: ys, h =>
              have := ih ls ys la (ra + y) s l2 r2 h
              exact ⟨this.1, le_trans this.2 (Nat.le_succ _)⟩

/-- Step-bounded body of `get_common_block_structure` (each round consumes at
least one block from each side). -/
def gcbsAux : (steps : ℕ) → (lhs rhs : List ℕ) → Except CErr (List ℕ)
  | 0, _, _ => .error .fuelExhausted
  | steps + 1, lhs, rhs =>
    if lhs.sum ≠ rhs.sum then .error .algebraError
    else
      match lhs, rhs with
      | [], [] => .ok []
      | [], y :: ys =>
          if y = 0 then
            match gcbsAux steps [] ys with
            | .error e => .error e
            | .ok r => .ok (0 :: r)
          else .error .algebraError
      | x :: xs, [] =>
          if x = 0 then
            match gcbsAux steps xs [] with
            | .error e => .error e
            | .ok r => .ok (0 :: r)
          else .error .algebraError
      | x :: xs, y :: ys =>
          match gcbsEat (xs.length + ys.length + 1) xs ys x y with
          | .error e => .error e
          | .ok (s, l2, r2) =>
              match gcbsAux steps l2 r2 with
              | .error e => .error e
              | .ok rest => .ok (s :: rest)

/-- `get_common_block_structure`: the coarsest common refinement of two block
structures over the same total channel count; unequal totals raise an
algebra error. -/
def gcbs (lhs rhs : List ℕ) : Except CErr (List ℕ) :=
  gcbsAux (lhs.length + rhs.length + 1) lhs rhs

/-- The loop of `Circuit.index_in_block` with the remaining iteration count
made explicit (`left` is `cdim - i`, so reaching zero is exactly the loop
bound `i < cdim` failing): increment `i` while the partial sum of the first
`i` blocks is at most the channel index. -/
def iibLoop (struct : List ℕ) (k : ℕ) : (i left : ℕ) → ℕ
  | i, 0 => i
  | i, left + 1 =>
    if (struct.take i).sum ≤ k then iibLoop struct k (i + 1) left
    else i

/-- `Circuit.index_in_block`: the index a channel has within the sub-block it
belongs to, together with the block index; out-of-range channels raise
`ValueError`, and a single-block circuit returns the channel index with block
zero. -/
def indexInBlock (c : Circuit) (k : ℕ) : Except CErr (ℕ × ℕ) :=
  if c.cdim ≤ k then .error .valueError
  else
    let struct := blockStructure c
    if struct.length = 1 then .ok (k, 0)
    else
      let i := iibLoop struct k 1 (c.cdim - 1)
      .ok (k - (struct.take (i - 1)).sum, i - 1)

/-- Consume operand sub-blocks until the requested block length is reached
(`Concatenation._get_blocks` inner `while` loop); overshooting raises
`IncompatibleBlockStructures`, running out of sub-blocks models the
exhausted iterator. -/
def takeGroup (bl : ℕ) : (cur : ℕ) → (acc : List Circuit) → (avail : List Circuit) →
    Except CErr (List Circuit × List Circuit)
  | cur, acc, avail =>
    if cur < bl then
      match avail with
      | [] => .error .stopIteration
      | c :: rest => takeGroup bl (cur + c.cdim) (acc ++ [c]) rest
    else if cur = bl then .ok (acc, avail)
    else .error .incompatibleBlocks
termination_by structural _ _ avail => avail

/-- Consume block permutations until the requested length is reached
(`CPermutation._get_blocks` inner `while` loop), offsetting each consumed
block; a length mismatch raises. -/
def cpgbTake (l : ℕ) : (cur : List ℕ) → (bps : List (List ℕ)) →
    Except CErr (List ℕ × List (List ℕ))
  | cur, bps =>
    if cur.length < l then
      match bps with
      | [] => .error .stopIteration
      | b :: rest => cpgbTake l (cur ++ b.map (fun x => x + cur.length)) rest
    else if cur.length = l then .ok (cur, bps)
    else .error .algebraError
termination_by structural _ bps => bps

/-- Merging loop of `CPermutation._get_blocks` for a coarser structure. -/
def cpgbLoop : List ℕ → List (List ℕ) → Except CErr (List Circuit)
  | [], _ => .ok []
  | l :: ls, bps =>
      match cpgbTake l [] bps with
      | .error e => .error e
      | .ok (merged, rest) =>
          match permCreate merged with
          | .error e => .error e
          | .ok c =>
              match cpgbLoop ls rest with
              | .error e => .error e
              | .ok more => .ok (c :: more)

/-- `CPermutation._get_blocks`: at the circuit's own block structure, each
maximal block permutation becomes its own circuit; a coarser structure merges
contiguous block permutations, raising on any mismatch. -/
def cpermGetBlocks (p : List ℕ) (struct : List ℕ) : Except CErr (List Circuit) :=
  let bps := permBlocks p
  if struct = bps.map List.length then bps.mapM permCreate
  else if bps.length < struct.length then .error .algebraError
  else if struct.sum ≠ p.length then .error .algebraError
  else cpgbLoop struct bps

/-- Starting offsets of the blocks of a block structure. -/
def blockOffsets (bs : List ℕ) : List ℕ :=
  (List.range bs.length).map (fun j => (bs.take j).sum)

/-- Index of the block of `bs` containing absolute channel `x` (the last
block whose starting offset is at most `x`). -/
def blockIndexOf (bs : List ℕ) (x : ℕ) : ℕ :=
  ((blockOffsets bs).filter (fun off => off ≤ x)).length - 1

/-- `block_perm_and_perms_within_blocks`, block-level part.  Modelled from the
spec: "(a) a block-level permutation of whole blocks"
(`qnet.algebra.permutations` is not under the sources): block `j` is sent to
the block containing the image of its first channel. -/
def blockPermOf (p bs : List ℕ) : List ℕ :=
  (List.range bs.length).map (fun j =>
    blockIndexOf bs (p.getD ((blockOffsets bs).getD j 0) 0))

/-- `block_perm_and_perms_within_blocks`, within-block part.  Modelled from
the spec: "(b) a permutation confined within each block": the images of block
`j`, re-based by the offset of the target block. -/
def permsWithinBlocks (p bs : List ℕ) : List (List ℕ) :=
  (List.range bs.length).map (fun j =>
    let off := (blockOffsets bs).getD j 0
    let seg := (p.drop off).take (bs.getD j 0)
    let tgt := blockIndexOf bs (seg.getD 0 0)
    seg.map (fun x => x - (blockOffsets bs).getD tgt 0))

/-- `full_block_perm`.  Modelled from the spec: the block-level permutation
"expanded to the full channel count": position block `j` receives the channel
range of block `bp[j]`. -/
def fullBlockPerm (bp bs : List ℕ) : List ℕ :=
  (bp.map (fun b =>
    (List.range (bs.getD b 0)).map (fun x => x + (blockOffsets bs).getD b 0))).flatten

/-- One-level associative flattening of nested series products (`assoc`).
Modelled from the spec: "nested operands of the same composition kind are
spliced into the parent's operand list"
(`qnet.algebra.abstract_algebra.assoc` is not under the sources). -/
def flattenSeries (ops : List Circuit) : List Circuit :=
  (ops.map (fun c => match c with | .series xs => xs | c => [c])).flatten

/-- One-level associative flattening of nested concatenations. -/
def flattenConcat (ops : List Circuit) : List Circuit :=
  (ops.map (fun c => match c with | .concat xs => xs | c => [c])).flatten

/-- The neutral-element test of `SeriesProduct`: its neutral-element checker
treats any circuit equal to the identity of its own channel dimension as
neutral. -/
def isSeriesNeutral (c : Circuit) : Bool := decide (c = cid c.cdim)

/-- The neutral-element test of `Concatenation`: the zero-channel circuit. -/
def isConcatNeutral (c : Circuit) : Bool := decide (c = Circuit.czero)

/-- `filter_neutral` for series products: drop every operand equal to the
identity of its own channel dimension. -/
def filterNeutralSeries (ops : List Circuit) : List Circuit :=
  ops.filter (fun c => ! isSeriesNeutral c)

/-- `filter_neutral` for concatenations: drop every operand equal to the
zero-channel circuit. -/
def filterNeutralConcat (ops : List Circuit) : List Circuit :=
  ops.filter (fun c => ! isConcatNeutral c)

/-- The `check_cdims` test: does some operand have a channel dimension
different from the first operand's? -/
def cdimMismatch (c : Circuit) (ops : List Circuit) : Bool :=
  ops.any (fun x => ! (x.cdim == c.cdim))

/-- Split an operand list into everything before the last operand and the
last operand itself, when there are at least two operands (the shape of the
`A__Circuit, B_CPermutation` patterns). -/
def splitTrailing (ops : List Circuit) : Option (List Circuit × Circuit) :=
  match ops.getLast? with
  | some lastc =>
      match ops with
      | _ :: _ :: _ => some (ops.dropLast, lastc)
      | _ => none
  | none => none

instance {e a : Type} [DecidableEq e] [DecidableEq a] : DecidableEq (Except e a) :=
  fun x y =>
    match x, y with
    | .ok u, .ok v => decidable_of_iff (u = v) (by simp)
    | .error u, .error v => decidable_of_iff (u = v) (by simp)
    | .ok _, .error _ => isFalse (by intro h; cases h)
    | .error _, .ok _ => isFalse (by intro h; cases h)

set_option maxHeartbeats 3200000 in
mutual

/-- `SeriesProduct.create`: the construction pipeline
`[assoc, filter_neutral, check_cdims, match_replace_binary, filter_neutral]`,
re-entered until a fixed point is reached.  The pipeline structure is
modelled from the spec (the pipeline lives in
`qnet.algebra.abstract_algebra`, which is not under the sources): associative
flattening, dropping neutral operands (an empty list collapsing to the
neutral element, a single survivor returned as is), the equal-`cdim` check
(`check_cdims` raises `ValueError`), then exhaustive adjacent-pair rewriting
with the binary rule table of `SeriesProduct._binary_rules`. -/
def seriesCreate : (fuel : ℕ) → List Circuit → Except CErr Circuit
  | 0, _ => .error .fuelExhausted
  | fuel + 1, ops0 =>
    let flat := flattenSeries ops0
    let d0 := ((flat.head?).map Circuit.cdim).getD 0
    match filterNeutralSeries flat with
    | [] => .ok (cid d0)
    | [c] => .ok c
    | c :: rest =>
      if cdimMismatch c (c :: rest) then .error .valueError
      else
        match seriesScan fuel (c :: rest) with
        | .error e => .error e
        | .ok none => .ok (.series (c :: rest))
        | .ok (some newOps) => seriesCreate fuel newOps
termination_by structural fuel _ => fuel

/-- Scan for the first adjacent operand pair on which a binary series rule
fires (`match_replace_binary`), replacing the pair by the rewritten circuit. -/
def seriesScan : (fuel : ℕ) → List Circuit → Except CErr (Option (List Circuit))
  | 0, _ => .error .fuelExhausted
  | fuel + 1, a :: b :: rest =>
    (match seriesPairRule fuel a b with
     | .error e => .error e
     | .ok (some c) => .ok (some (c :: rest))
     | .ok none =>
        match seriesScan fuel (b :: rest) with
        | .error e => .error e
        | .ok none => .ok none
        | .ok (some tail) => .ok (some (a :: tail)))
  | _, _ => .ok none
termination_by structural fuel _ => fuel

/-- The ordered binary rule table of `SeriesProduct._binary_rules`:
permutation composition, SLH series fold, tensor decomposition along a
common non-trivial block structure, permutation factorization around a
reducible upstream circuit, and collapse of a circuit composed with its own
formal series inverse.  `.ok none` is the `CannotSimplify` signal. -/
def seriesPairRule : (fuel : ℕ) → Circuit → Circuit → Except CErr (Option Circuit)
  | 0, _, _ => .error .fuelExhausted
  | fuel + 1, a, b =>
    match a, b with
    | .cperm p, .cperm q =>
        (match permCreate (composePerm p q) with
         | .error e => .error e
         | .ok c => .ok (some c))
    | .slh S1 L1 H1, .slh S2 L2 H2 => .ok (some (seriesWithSLH S1 L1 H1 S2 L2 H2))
    | a, b =>
        match tensorRule fuel a b with
        | .error e => .error e
        | .ok (some c) => .ok (some c)
        | .ok none =>
          match factorPermRule fuel a b with
          | .error e => .error e
          | .ok (some c) => .ok (some c)
          | .ok none =>
            if b = .sinv a then .ok (some (cid a.cdim))
            else
              match a with
              | .sinv a0 => if b = a0 then .ok (some (cid a0.cdim)) else .ok none
              | _ => .ok none
termination_by structural fuel _ _ => fuel

/-- `_tensor_decompose_series`: refuse a permutation on the right, compute
the common block structure, and when it has more than one block decompose
both circuits and series-compose block-wise inside a concatenation. -/
def tensorRule : (fuel : ℕ) → Circuit → Circuit → Except CErr (Option Circuit)
  | 0, _, _ => .error .fuelExhausted
  | fuel + 1, a, b =>
    match b with
    | .cperm _ => .ok none
    | b =>
      match gcbs (blockStructure a) (blockStructure b) with
      | .error e => .error e
      | .ok res =>
        match res with
        | [] => .ok none
        | [_] => .ok none
        | res =>
          match getBlocks fuel a res with
          | .error e => .error e
          | .ok blocks =>
            match getBlocks fuel b res with
            | .error e => .error e
            | .ok oblocks =>
              match seriesZip fuel blocks oblocks with
              | .error e => .error e
              | .ok pairs =>
                match concatCreate fuel pairs with
                | .error e => .error e
                | .ok c => .ok (some c)
termination_by structural fuel _ _ => fuel

/-- Block-wise series products for the tensor decomposition. -/
def seriesZip : (fuel : ℕ) → List Circuit → List Circuit → Except CErr (List Circuit)
  | 0, _, _ => .error .fuelExhausted
  | _ + 1, [], _ => .ok []
  | _ + 1, _, [] => .ok []
  | fuel + 1, x :: xs, y :: ys =>
    match seriesCreate fuel [x, y] with
    | .error e => .error e
    | .ok c =>
      match seriesZip fuel xs ys with
      | .error e => .error e
      | .ok rest => .ok (c :: rest)
termination_by structural fuel _ _ => fuel

/-- `_factor_permutation_for_blocks`: a permutation composed with an identity
collapses to the permutation; against a reducible circuit with more than one
block, factorize the permutation around the blocks (`CPermutation
._factorize_for_rhs`); no progress is `CannotSimplify`. -/
def factorPermRule : (fuel : ℕ) → Circuit → Circuit → Except CErr (Option Circuit)
  | 0, _, _ => .error .fuelExhausted
  | fuel + 1, a, b =>
    match a with
    | .cperm p =>
      if b = cid b.cdim then .ok (some (.cperm p))
      else
        match blockStructure b with
        | [] => .ok none
        | [_] => .ok none
        | _ =>
          match factorizeForRhs fuel p b with
          | .error e => .error e
          | .ok (residual, transformed, carried) =>
            if residual = .cperm p then .ok none
            else
              match seriesCreate fuel [residual, transformed, carried] with
              | .error e => .error e
              | .ok c => .ok (some c)
    | _ => .ok none
termination_by structural fuel _ _ => fuel

/-- `CPermutation._factorize_for_rhs`: split the permutation into a block
permutation and within-block permutations relative to the upstream block
structure, check the expanded block permutation is a bijection
(`BadPermutationError` otherwise), and rebuild
`new_lhs << permuted_rhs << new_rhs`. -/
def factorizeForRhs : (fuel : ℕ) → List ℕ → Circuit →
    Except CErr (Circuit × Circuit × Circuit)
  | 0, _, _ => .error .fuelExhausted
  | fuel + 1, p, rhs =>
    let bs := blockStructure rhs
    let bp := blockPermOf p bs
    let pwb := permsWithinBlocks p bs
    let fbp := fullBlockPerm bp bs
    if ¬ (List.Perm fbp (List.range p.length)) then .error .badPermutation
    else
      match permCreate fbp with
      | .error e => .error e
      | .ok newRhsCircuit =>
        match pwb.mapM permCreate with
        | .error e => .error e
        | .ok withins =>
          match concatCreate fuel withins with
          | .error e => .error e
          | .ok withinCircuit =>
            match getBlocks fuel rhs bs with
            | .error e => .error e
            | .ok rhsBlocks =>
              match summandsZip fuel (invertPermutation bp) withins rhsBlocks with
              | .error e => .error e
              | .ok summands =>
                match concatCreate fuel summands with
                | .error e => .error e
                | .ok permuted =>
                  match sinvCreate fuel withinCircuit with
                  | .error e => .error e
                  | .ok winv =>
                    match sinvCreate fuel newRhsCircuit with
                    | .error e => .error e
                    | .ok rinv =>
                      match seriesCreate fuel [.cperm p, winv] with
                      | .error e => .error e
                      | .ok t1 =>
                        match seriesCreate fuel [t1, rinv] with
                        | .error e => .error e
                        | .ok newLhs => .ok (newLhs, permuted, newRhsCircuit)
termination_by structural fuel _ _ => fuel

/-- The summand list of `_factorize_for_rhs`: for each index of the inverted
block permutation, the series product of the within-block permutation and
the matching upstream block (an out-of-range index models the `IndexError`
of the source). -/
def summandsZip : (fuel : ℕ) → List ℕ → List Circuit → List Circuit →
    Except CErr (List Circuit)
  | 0, _, _, _ => .error .fuelExhausted
  | _ + 1, [], _, _ => .ok []
  | fuel + 1, o :: os, withins, rhsBlocks =>
    match withins.get? o, rhsBlocks.get? o with
    | some w, some rb =>
      (match seriesCreate fuel [w, rb] with
       | .error e => .error e
       | .ok c =>
         match summandsZip fuel os withins rhsBlocks with
         | .error e => .error e
         | .ok rest => .ok (c :: rest))
    | _, _ => .error .valueError
termination_by structural fuel _ _ _ => fuel

/-- `Concatenation.create`: the pipeline
`[assoc, filter_neutral, match_replace_binary, filter_neutral]` with neutral
element `CircuitZero`, re-entered until a fixed point. -/
def concatCreate : (fuel : ℕ) → List Circuit → Except CErr Circuit
  | 0, _ => .error .fuelExhausted
  | fuel + 1, ops0 =>
    match filterNeutralConcat (flattenConcat ops0) with
    | [] => .ok .czero
    | [c] => .ok c
    | ops =>
      match concatScan fuel ops with
      | .error e => .error e
      | .ok none => .ok (.concat ops)
      | .ok (some newOps) => concatCreate fuel newOps
termination_by structural fuel _ => fuel

/-- Scan for the first adjacent operand pair on which a binary concatenation
rule fires. -/
def concatScan : (fuel : ℕ) → List Circuit → Except CErr (Option (List Circuit))
  | 0, _ => .error .fuelExhausted
  | fuel + 1, a :: b :: rest =>
    (match concatPairRule fuel a b with
     | .error e => .error e
     | .ok (some c) => .ok (some (c :: rest))
     | .ok none =>
        match concatScan fuel (b :: rest) with
        | .error e => .error e
        | .ok none => .ok none
        | .ok (some tail) => .ok (some (a :: tail)))
  | _, _ => .ok none
termination_by structural fuel _ => fuel

/-- The ordered binary rule table of `Concatenation._binary_rules`: SLH
concatenation fold, permutation concatenation, absorption of a single-channel
identity into a neighbouring permutation, and the distributive pulling-out of
trailing permutations from series products. -/
def concatPairRule : (fuel : ℕ) → Circuit → Circuit → Except CErr (Option Circuit)
  | 0, _, _ => .error .fuelExhausted
  | fuel + 1, a, b =>
    match a, b with
    | .slh S1 L1 H1, .slh S2 L2 H2 =>
        .ok (some (concatenateSLH S1 L1 H1 S2 L2 H2))
    | .cperm p, .cperm q =>
        (match permCreate (concatenatePermutations p q) with
         | .error e => .error e
         | .ok c => .ok (some c))
    | .cperm p, .cid1 =>
        (match permCreate (concatenatePermutations p [0]) with
         | .error e => .error e
         | .ok c => .ok (some c))
    | .cid1, .cperm q =>
        (match permCreate (concatenatePermutations [0] q) with
         | .error e => .error e
         | .ok c => .ok (some c))
    | a, b =>
      match splitTrailing (match a with | .series xs => xs | _ => []) with
      | some (as0, .cperm pb) =>
        (match a with
         | .series _ =>
            (match splitTrailing (match b with | .series ys => ys | _ => []) with
             | some (cs0, .cperm pd) =>
                (match b with
                 | .series _ =>
                    (match seriesCreate fuel as0 with
                     | .error e => .error e
                     | .ok sa =>
                       match seriesCreate fuel cs0 with
                       | .error e => .error e
                       | .ok sc =>
                         match concatCreate fuel [sa, sc] with
                         | .error e => .error e
                         | .ok left =>
                           match concatCreate fuel [.cperm pb, .cperm pd] with
                           | .error e => .error e
                           | .ok right =>
                             match seriesCreate fuel [left, right] with
                             | .error e => .error e
                             | .ok c => .ok (some c))
                 | _ => concatRule7 fuel as0 pb b)
             | _ => concatRule7 fuel as0 pb b)
         | _ => .ok none)
      | _ =>
        match splitTrailing (match b with | .series ys => ys | _ => []) with
        | some (bs0, .cperm pc) =>
          (match b with
           | .series _ => concatRule8 fuel a bs0 pc
           | _ => .ok none)
        | _ => .ok none
termination_by structural fuel _ _ => fuel

/-- Distributive rule for `(A… << permB) + C`:
rewrite to `(SeriesProduct(A…) + C) << (permB + cid(C.cdim))`. -/
def concatRule7 : (fuel : ℕ) → List Circuit → List ℕ → Circuit →
    Except CErr (Option Circuit)
  | 0, _, _, _ => .error .fuelExhausted
  | fuel + 1, as0, pb, c =>
    match seriesCreate fuel as0 with
    | .error e => .error e
    | .ok sa =>
      match concatCreate fuel [sa, c] with
      | .error e => .error e
      | .ok left =>
        match concatCreate fuel [.cperm pb, cid c.cdim] with
        | .error e => .error e
        | .ok right =>
          match seriesCreate fuel [left, right] with
          | .error e => .error e
          | .ok r => .ok (some r)
termination_by structural fuel _ _ _ => fuel

/-- Distributive rule for `A + (B… << permC)`:
rewrite to `(A + SeriesProduct(B…)) << (cid(A.cdim) + permC)`. -/
def concatRule8 : (fuel : ℕ) → Circuit → List Circuit → List ℕ →
    Except CErr (Option Circuit)
  | 0, _, _, _ => .error .fuelExhausted
  | fuel + 1, a, bs0, pc =>
    match seriesCreate fuel bs0 with
    | .error e => .error e
    | .ok sb =>
      match concatCreate fuel [a, sb] with
      | .error e => .error e
      | .ok left =>
        match concatCreate fuel [cid a.cdim, .cperm pc] with
        | .error e => .error e
        | .ok right =>
          match seriesCreate fuel [left, right] with
          | .error e => .error e
          | .ok r => .ok (some r)
termination_by structural fuel _ _ _ => fuel

/-- `SeriesInverse.create` together with the per-class `_series_inverse`
methods it delegates to: double inversion unwraps; a series product inverts
its reversed operands; a concatenation inverts operand-wise; feedback inverts
the operand and swaps the port pair; an SLH triple becomes
`(S†, −S†·L, −H)`; a permutation inverts its bijection (built with the raw
`CPermutation` constructor); the single-channel identity is self-inverse;
symbols and the zero circuit stay under a formal `SeriesInverse` node. -/
def sinvCreate : (fuel : ℕ) → Circuit → Except CErr Circuit
  | 0, _ => .error .fuelExhausted
  | fuel + 1, c =>
    match c with
    | .sinv d => .ok d
    | .series ops =>
        (match sinvList fuel ops.reverse with
         | .error e => .error e
         | .ok invs => seriesCreate fuel invs)
    | .concat ops =>
        (match sinvList fuel ops with
         | .error e => .error e
         | .ok invs => concatCreate fuel invs)
    | .fb d o i =>
        (match sinvCreate fuel d with
         | .error e => .error e
         | .ok dinv => feedbackCreate fuel dinv i o)
    | .slh S L H =>
        .ok (.slh (Mat.adjointM S) (Mat.negM (Mat.mul (Mat.adjointM S) L)) (SVal.sNeg H))
    | .cperm p => .ok (.cperm (invertPermutation p))
    | .cid1 => .ok .cid1
    | c => .ok (.sinv c)
termination_by structural fuel _ => fuel

/-- Series inverses of a list of operands. -/
def sinvList : (fuel : ℕ) → List Circuit → Except CErr (List Circuit)
  | 0, _ => .error .fuelExhausted
  | _ + 1, [] => .ok []
  | fuel + 1, c :: cs =>
    match sinvCreate fuel c with
    | .error e => .error e
    | .ok d =>
      match sinvList fuel cs with
      | .error e => .error e
      | .ok ds => .ok (d :: ds)
termination_by structural fuel _ => fuel

/-- `Feedback.create`: reject channel dimension zero or one (`ValueError`),
delegate to the `_feedback` methods of concatenations, SLH triples and
permutations, apply the `Feedback._rules` table to series products, and
otherwise build an unreduced feedback node. -/
def feedbackCreate : (fuel : ℕ) → Circuit → ℕ → ℕ → Except CErr Circuit
  | 0, _, _, _ => .error .fuelExhausted
  | fuel + 1, c, o, i =>
    let n := c.cdim
    if n = 0 then .error .valueError
    else if n = 1 then .error .valueError
    else
      match c with
      | .concat ops => concatFeedback fuel ops o i
      | .slh S L H => slhFeedback fuel S L H o i
      | .cperm p => cpermFeedback fuel p o i
      | .series sops => fbSeriesRules fuel sops o i
      | c => .ok (.fb c o i)
termination_by structural fuel _ _ _ => fuel

/-- `Circuit.feedback`: default both port indices to the last channel and
dispatch on the per-class `_feedback` methods (the default method delegates
to `Feedback.create`). -/
def circuitFeedback : (fuel : ℕ) → Circuit → Option ℕ → Option ℕ →
    Except CErr Circuit
  | 0, _, _, _ => .error .fuelExhausted
  | fuel + 1, c, oOpt, iOpt =>
    let o := oOpt.getD (c.cdim - 1)
    let i := iOpt.getD (c.cdim - 1)
    match c with
    | .concat ops => concatFeedback fuel ops o i
    | .slh S L H => slhFeedback fuel S L H o i
    | .cperm p => cpermFeedback fuel p o i
    | c => feedbackCreate fuel c o i
termination_by structural fuel _ _ _ => fuel

/-- The ordered `Feedback._rules` table on a series product: double series
inversion (`_series_feedback`), pulling a leading permutation or leading
concatenation out of the loop, and symmetrically for a trailing permutation
or concatenation; when no rule applies the feedback node stays. -/
def fbSeriesRules : (fuel : ℕ) → List Circuit → ℕ → ℕ → Except CErr Circuit
  | 0, _, _, _ => .error .fuelExhausted
  | fuel + 1, sops, o, i =>
    match fbRule1 fuel sops o i with
    | .error e => .error e
    | .ok (some r) => .ok r
    | .ok none =>
      match sops with
      | .cperm p :: r1 :: rest => fbRule2 fuel p (r1 :: rest) o i
      | .concat cs :: r1 :: rest =>
          (match fbRule3 fuel cs (r1 :: rest) o i with
           | .error e => .error e
           | .ok (some r) => .ok r
           | .ok none => fbTrailing fuel sops o i)
      | sops => fbTrailing fuel sops o i
termination_by structural fuel _ _ _ => fuel

/-- Trailing-operand feedback rules of the series table (leading rules did
not fire): a trailing permutation is factored out (`_pull_out_perm_rhs`), a
trailing concatenation has its unaffected blocks pulled out
(`_pull_out_unaffected_blocks_rhs`); otherwise the feedback node stays. -/
def fbTrailing : (fuel : ℕ) → List Circuit → ℕ → ℕ → Except CErr Circuit
  | 0, _, _, _ => .error .fuelExhausted
  | fuel + 1, sops, o, i =>
    match splitTrailing sops with
    | some (pre, .cperm q) => fbRule4 fuel pre q o i
    | some (pre, .concat cs) =>
        (match fbRule5 fuel pre cs o i with
         | .error e => .error e
         | .ok (some r) => .ok r
         | .ok none => .ok (.fb (.series sops) o i))
    | _ => .ok (.fb (.series sops) o i)
termination_by structural fuel _ _ _ => fuel

/-- `_series_feedback`: invert the series twice; when this changes the
expression, take the feedback of the result instead. -/
def fbRule1 : (fuel : ℕ) → List Circuit → ℕ → ℕ → Except CErr (Option Circuit)
  | 0, _, _, _ => .error .fuelExhausted
  | fuel + 1, sops, o, i =>
    match sinvCreate fuel (.series sops) with
    | .error e => .error e
    | .ok s1 =>
      match sinvCreate fuel s1 with
      | .error e => .error e
      | .ok s2 =>
        if s2 = .series sops then .ok none
        else
          match circuitFeedback fuel s2 (some o) (some i) with
          | .error e => .error e
          | .ok r => .ok (some r)
termination_by structural fuel _ _ _ => fuel

/-- `_pull_out_perm_lhs`: factor a leading permutation at the feedback
output port and leave only the reduced feedback inside. -/
def fbRule2 : (fuel : ℕ) → List ℕ → List Circuit → ℕ → ℕ → Except CErr Circuit
  | 0, _, _, _, _ => .error .fuelExhausted
  | fuel + 1, p, rest, o, i =>
    match factorLhs fuel p o with
    | .error e => .error e
    | .ok (oinv, lred) =>
      match seriesCreate fuel rest with
      | .error e => .error e
      | .ok inner =>
        match feedbackCreate fuel inner oinv i with
        | .error e => .error e
        | .ok fbi => seriesCreate fuel [lred, fbi]
termination_by structural fuel _ _ _ _ => fuel

/-- `_pull_out_unaffected_blocks_lhs`: in a series self-feedback whose
left-most operand is a concatenation, pull the blocks untouched by the loop
outside the feedback. -/
def fbRule3 : (fuel : ℕ) → List Circuit → List Circuit → ℕ → ℕ →
    Except CErr (Option Circuit)
  | 0, _, _, _, _ => .error .fuelExhausted
  | fuel + 1, cs, rest, o, i =>
    let lhs := Circuit.concat cs
    match indexInBlock lhs o with
    | .error e => .error e
    | .ok (_, bi) =>
      let bs := blockStructure lhs
      let nbefore := (bs.take bi).sum
      let nblock := bs.getD bi 0
      let nafter := (bs.drop (bi + 1)).sum
      match getBlocks fuel lhs [nbefore, nblock, nafter] with
      | .error e => .error e
      | .ok [before, blk, after] =>
        if before ≠ cid nbefore ∨ after ≠ cid nafter then
          match concatCreate fuel [before, cid (nblock - 1)] with
          | .error e => .error e
          | .ok t1 =>
            match concatCreate fuel [t1, after] with
            | .error e => .error e
            | .ok outer =>
              match concatCreate fuel [cid nbefore, blk] with
              | .error e => .error e
              | .ok u1 =>
                match concatCreate fuel [u1, cid nafter] with
                | .error e => .error e
                | .ok innerLhs =>
                  match seriesCreate fuel (innerLhs :: rest) with
                  | .error e => .error e
                  | .ok sp =>
                    match feedbackCreate fuel sp o i with
                    | .error e => .error e
                    | .ok fbi =>
                      match seriesCreate fuel [outer, fbi] with
                      | .error e => .error e
                      | .ok r => .ok (some r)
        else if blk = cid nblock then
          match concatCreate fuel [before, cid (nblock - 1)] with
          | .error e => .error e
          | .ok t1 =>
            match concatCreate fuel [t1, after] with
            | .error e => .error e
            | .ok outer =>
              match seriesCreate fuel rest with
              | .error e => .error e
              | .ok sp =>
                match feedbackCreate fuel sp o i with
                | .error e => .error e
                | .ok fbi =>
                  match seriesCreate fuel [outer, fbi] with
                  | .error e => .error e
                  | .ok r => .ok (some r)
        else .ok none
      | .ok _ => .error .valueError
termination_by structural fuel _ _ _ _ => fuel

/-- `_pull_out_perm_rhs`: factor a trailing permutation at the feedback
input port. -/
def fbRule4 : (fuel : ℕ) → List Circuit → List ℕ → ℕ → ℕ → Except CErr Circuit
  | 0, _, _, _, _ => .error .fuelExhausted
  | fuel + 1, pre, q, o, i =>
    match factorRhs fuel q i with
    | .error e => .error e
    | .ok (inIm, rred) =>
      match seriesCreate fuel pre with
      | .error e => .error e
      | .ok inner =>
        match feedbackCreate fuel inner o inIm with
        | .error e => .error e
        | .ok fbi => seriesCreate fuel [fbi, rred]
termination_by structural fuel _ _ _ _ => fuel

/-- `_pull_out_unaffected_blocks_rhs`: the trailing-concatenation analogue of
`fbRule3`. -/
def fbRule5 : (fuel : ℕ) → List Circuit → List Circuit → ℕ → ℕ →
    Except CErr (Option Circuit)
  | 0, _, _, _, _ => .error .fuelExhausted
  | fuel + 1, pre, cs, o, i =>
    let rhs := Circuit.concat cs
    match indexInBlock rhs i with
    | .error e => .error e
    | .ok (_, bi) =>
      let bs := blockStructure rhs
      let nbefore := (bs.take bi).sum
      let nblock := bs.getD bi 0
      let nafter := (bs.drop (bi + 1)).sum
      match getBlocks fuel rhs [nbefore, nblock, nafter] with
      | .error e => .error e
      | .ok [before, blk, after] =>
        if before ≠ cid nbefore ∨ after ≠ cid nafter then
          match concatCreate fuel [before, cid (nblock - 1)] with
          | .error e => .error e
          | .ok t1 =>
            match concatCreate fuel [t1, after] with
            | .error e => .error e
            | .ok outer =>
              match concatCreate fuel [cid nbefore, blk] with
              | .error e => .error e
              | .ok u1 =>
                match concatCreate fuel [u1, cid nafter] with
                | .error e => .error e
                | .ok innerRhs =>
                  match seriesCreate fuel (pre ++ [innerRhs]) with
                  | .error e => .error e
                  | .ok sp =>
                    match feedbackCreate fuel sp o i with
                    | .error e => .error e
                    | .ok fbi =>
                      match seriesCreate fuel [fbi, outer] with
                      | .error e => .error e
                      | .ok r => .ok (some r)
        else if blk = cid nblock then
          match concatCreate fuel [before, cid (nblock - 1)] with
          | .error e => .error e
          | .ok t1 =>
            match concatCreate fuel [t1, after] with
            | .error e => .error e
            | .ok outer =>
              match seriesCreate fuel pre with
              | .error e => .error e
              | .ok sp =>
                match feedbackCreate fuel sp o i with
                | .error e => .error e
                | .ok fbi =>
                  match seriesCreate fuel [fbi, outer] with
                  | .error e => .error e
                  | .ok r => .ok (some r)
        else .ok none
      | .ok _ => .error .valueError
termination_by structural fuel _ _ _ _ => fuel

/-- `CPermutation._factor_lhs`: route the marked output port to the last
channel and solve for the reduced `(n−1)`-channel permutation; the source
asserts the index is in range and that the combined permutation fixes the
last channel. -/
def factorLhs : (fuel : ℕ) → List ℕ → ℕ → Except CErr (ℕ × Circuit)
  | 0, _, _ => .error .fuelExhausted
  | fuel + 1, p, o =>
    let n := p.length
    if n ≤ o then .error .valueError
    else
      let oinv := p.indexOf o
      if n ≤ oinv then .error .valueError
      else
        match mapSignalsCircuit [(o, n - 1)] n with
        | .error e => .error e
        | .ok m1 =>
          match mapSignalsCircuit [(n - 1, oinv)] n with
          | .error e => .error e
          | .ok m2 =>
            match seriesCreate fuel [m1, .cperm p] with
            | .error e => .error e
            | .ok t =>
              match seriesCreate fuel [t, m2] with
              | .error e => .error e
              | .ok rpc =>
                match rpc with
                | .cperm q =>
                    if q.getD (n - 1) 0 ≠ n - 1 then .error .valueError
                    else
                      match permCreate q.dropLast with
                      | .error e => .error e
                      | .ok red => .ok (oinv, red)
                | _ => .ok (oinv, cid (n - 1))
termination_by structural fuel _ _ => fuel

/-- `CPermutation._factor_rhs`: route the last channel to the marked input
port and solve for the reduced `(n−1)`-channel permutation. -/
def factorRhs : (fuel : ℕ) → List ℕ → ℕ → Except CErr (ℕ × Circuit)
  | 0, _, _ => .error .fuelExhausted
  | fuel + 1, p, i =>
    let n := p.length
    if n ≤ i then .error .valueError
    else
      let inIm := p.getD i 0
      match mapSignalsCircuit [(inIm, n - 1)] n with
      | .error e => .error e
      | .ok m1 =>
        match mapSignalsCircuit [(n - 1, i)] n with
        | .error e => .error e
        | .ok m2 =>
          match seriesCreate fuel [m1, .cperm p] with
          | .error e => .error e
          | .ok t =>
            match seriesCreate fuel [t, m2] with
            | .error e => .error e
            | .ok rpc =>
              match rpc with
              | .cperm q =>
                  if q.getD (n - 1) 0 ≠ n - 1 then .error .valueError
                  else
                    match permCreate q.dropLast with
                    | .error e => .error e
                    | .ok red => .ok (inIm, red)
              | _ => .ok (inIm, cid (n - 1))
termination_by structural fuel _ _ => fuel

/-- `Concatenation._feedback`: when both marked ports are the last channel,
recurse into the last block; when both lie in one block, recurse into that
block and keep the others; when they span two blocks there is no true loop
and the expression is rewritten to a series connection through a signal
mapping. -/
def concatFeedback : (fuel : ℕ) → List Circuit → ℕ → ℕ → Except CErr Circuit
  | 0, _, _, _ => .error .fuelExhausted
  | fuel + 1, ops, o, i =>
    let c := Circuit.concat ops
    let n := c.cdim
    if o = n - 1 ∧ i = n - 1 then
      match ops.getLast? with
      | none => .error .valueError
      | some lastc =>
        match circuitFeedback fuel lastc none none with
        | .error e => .error e
        | .ok fbLast => concatCreate fuel (ops.dropLast ++ [fbLast])
    else
      match indexInBlock c i with
      | .error e => .error e
      | .ok (iib, ib) =>
        match indexInBlock c o with
        | .error e => .error e
        | .ok (oib, ob) =>
          match getBlocks fuel c (blockStructure c) with
          | .error e => .error e
          | .ok blocks =>
            if ib = ob then
              match blocks.get? ob with
              | none => .error .valueError
              | some blk =>
                match circuitFeedback fuel blk (some oib) (some iib) with
                | .error e => .error e
                | .ok fbBlk =>
                  match concatCreate fuel (blocks.take ob) with
                  | .error e => .error e
                  | .ok left =>
                    match concatCreate fuel (blocks.drop (ob + 1)) with
                    | .error e => .error e
                    | .ok right =>
                      match concatCreate fuel [left, fbBlk] with
                      | .error e => .error e
                      | .ok t => concatCreate fuel [t, right]
            else if ib < ob then
              match concatCreate fuel (blocks.take ob) with
              | .error e => .error e
              | .ok b1 =>
                match concatCreate fuel (blocks.drop ob) with
                | .error e => .error e
                | .ok b2 =>
                  match mapSignalsCircuit [(o - 1, i)] (n - 1) with
                  | .error e => .error e
                  | .ok m =>
                    match concatCreate fuel [b1, cid (b2.cdim - 1)] with
                    | .error e => .error e
                    | .ok x =>
                      match concatCreate fuel [cid (b1.cdim - 1), b2] with
                      | .error e => .error e
                      | .ok y =>
                        match seriesCreate fuel [x, m] with
                        | .error e => .error e
                        | .ok t => seriesCreate fuel [t, y]
            else
              match concatCreate fuel (blocks.take ib) with
              | .error e => .error e
              | .ok b1 =>
                match concatCreate fuel (blocks.drop ib) with
                | .error e => .error e
                | .ok b2 =>
                  match mapSignalsCircuit [(o, i - 1)] (n - 1) with
                  | .error e => .error e
                  | .ok m =>
                    match concatCreate fuel [cid (b1.cdim - 1), b2] with
                    | .error e => .error e
                    | .ok x =>
                      match concatCreate fuel [b1, cid (b2.cdim - 1)] with
                      | .error e => .error e
                      | .ok y =>
                        match seriesCreate fuel [x, m] with
                        | .error e => .error e
                        | .ok t => seriesCreate fuel [t, y]
termination_by structural fuel _ _ _ => fuel

/-- `CPermutation._feedback`: conjugate the permutation so the loop uses the
last channel; the result either collapses to a smaller identity or has the
loop channel removed and the image renumbered. -/
def cpermFeedback : (fuel : ℕ) → List ℕ → ℕ → ℕ → Except CErr Circuit
  | 0, _, _, _ => .error .fuelExhausted
  | fuel + 1, p, o, i =>
    let n := p.length
    match mapSignalsCircuit [(o, n - 1)] n with
    | .error e => .error e
    | .ok m1 =>
      match mapSignalsCircuit [(n - 1, i)] n with
      | .error e => .error e
      | .ok m2 =>
        match seriesCreate fuel [m1, .cperm p] with
        | .error e => .error e
        | .ok t =>
          match seriesCreate fuel [t, m2] with
          | .error e => .error e
          | .ok npc =>
            if npc = cid n then .ok (cid (n - 1))
            else
              match npc with
              | .cperm q =>
                  let ninv := q.indexOf (n - 1)
                  if q.length ≤ ninv then .error .valueError
                  else permCreate ((q.set ninv (q.getD (n - 1) 0)).dropLast)
              | _ => .error .algebraError
termination_by structural fuel _ _ _ => fuel

/-- `SLH._feedback`: reroute so the loop uses the last channel, then apply
the representation-level feedback formula with `d = 1 − S[n,n]` inverted
symbolically (sympy division raises nothing at zero). -/
def slhFeedback : (fuel : ℕ) → Mat → Mat → SVal → ℕ → ℕ → Except CErr Circuit
  | 0, _, _, _, _, _ => .error .fuelExhausted
  | fuel + 1, S, L, H, o, i =>
    let cd := S.length
    let n := cd - 1
    if o ≠ n then
      match mapSignalsCircuit [(o, n)] cd with
      | .error e => .error e
      | .ok m =>
        match seriesCreate fuel [routeToSLH m, .slh S L H] with
        | .error e => .error e
        | .ok comp => circuitFeedback fuel comp none (some i)
    else if i ≠ n then
      match mapSignalsCircuit [(n, i)] cd with
      | .error e => .error e
      | .ok m =>
        match seriesCreate fuel [.slh S L H, routeToSLH m] with
        | .error e => .error e
        | .ok comp => circuitFeedback fuel comp none none
    else
      let Snn := Mat.entry S n n
      let dinv := SVal.sDiv (SVal.int 1) (SVal.sSub (SVal.int 1) Snn)
      let newS := Mat.addM (Mat.takeCols (Mat.takeRows S n) n)
        (Mat.mul (Mat.smulR (Mat.dropCols (Mat.takeRows S n) n) dinv)
          (Mat.takeCols (Mat.dropRows S n) n))
      let newL := Mat.addM (Mat.takeRows L n)
        (Mat.smulR (Mat.smulR (Mat.dropCols (Mat.takeRows S n) n) dinv)
          (Mat.entry L n 0))
      let dh := Mat.imM (Mat.smulR (Mat.smulR
        (Mat.mul (Mat.adjointM (Mat.takeRows L (L.length - 1)))
          (Mat.dropCols (Mat.takeRows S (S.length - 1)) n)) dinv)
        (Mat.entry L n 0))
      .ok (.slh newS newL (SVal.sAdd H (Mat.entry dh 0 0)))
termination_by structural fuel _ _ _ _ _ => fuel

/-- `Circuit.get_blocks` with the per-class `_get_blocks` implementations:
a concatenation groups operand sub-blocks cumulatively by the requested
sizes; a permutation groups its block permutations; every other variant
yields itself when the requested structure is its own and raises
`IncompatibleBlockStructures` otherwise. -/
def getBlocks : (fuel : ℕ) → Circuit → List ℕ → Except CErr (List Circuit)
  | 0, _, _ => .error .fuelExhausted
  | fuel + 1, c, struct =>
    match c with
    | .concat ops =>
        (match getBlocksList fuel ops with
         | .error e => .error e
         | .ok avail => groupBlocks fuel struct avail)
    | .cperm p => cpermGetBlocks p struct
    | c => if struct = blockStructure c then .ok [c] else .error .incompatibleBlocks
termination_by structural fuel _ _ => fuel

/-- The flattened sub-block pool of a concatenation
(`sum((op.get_blocks() for op in self.operands), ())`). -/
def getBlocksList : (fuel : ℕ) → List Circuit → Except CErr (List Circuit)
  | 0, _ => .error .fuelExhausted
  | _ + 1, [] => .ok []
  | fuel + 1, c :: cs =>
    match getBlocks fuel c (blockStructure c) with
    | .error e => .error e
    | .ok b =>
      match getBlocksList fuel cs with
      | .error e => .error e
      | .ok rest => .ok (b ++ rest)
termination_by structural fuel _ => fuel

/-- The grouping loop of `Concatenation._get_blocks`: one concatenation per
requested block size. -/
def groupBlocks : (fuel : ℕ) → List ℕ → List Circuit → Except CErr (List Circuit)
  | 0, _, _ => .error .fuelExhausted
  | _ + 1, [], _ => .ok []
  | fuel + 1, bl :: bls, avail =>
    match takeGroup bl 0 [] avail with
    | .error e => .error e
    | .ok (group, rest) =>
      match concatCreate fuel group with
      | .error e => .error e
      | .ok blk =>
        match groupBlocks fuel bls rest with
        | .error e => .error e
        | .ok more => .ok (blk :: more)
termination_by structural fuel _ _ => fuel

end

/-- The circuit `CPermutation.create` returns on a valid image tuple: the
identity circuit for the identity tuple, a permutation node otherwise. -/
def cpermOf (p : List ℕ) : Circuit :=
  if p = List.range p.length then cid p.length else .cperm p

/-- The series-fold formula exactly as the specification words it:
`S = S₁·S₂`, `L = S₁·L₂ + L₁`, `H = H₁ + H₂ + Im(L₁† · S₁ · L₂)`, with the
imaginary-part correction extracted as the single entry of the resulting 1×1
matrix. -/
def specSeriesFold (S1 L1 : Mat) (H1 : SVal) (S2 L2 : Mat) (H2 : SVal) : Circuit :=
  .slh (Mat.mul S1 S2) (Mat.addM (Mat.mul S1 L2) L1)
    (SVal.sAdd (SVal.sAdd H1 H2)
      (Mat.entry (Mat.imM (Mat.mul (Mat.mul (Mat.adjointM L1) S1) L2)) 0 0))

/-! ## Supporting lemmas -/

theorem cid_eq_czero_or_cid1_or_concat (n : ℕ) :
    cid n = .czero ∨ cid n = .cid1 ∨
      cid n = .concat (List.replicate n .cid1) := by
  unfold cid
  split
  · exact Or.inl rfl
  · split
    · exact Or.inr (Or.inl rfl)
    · exact Or.inr (Or.inr rfl)

theorem cid_ne_cperm (n : ℕ) (p : List ℕ) : cid n ≠ .cperm p := by
  rcases cid_eq_czero_or_cid1_or_concat n with h | h | h <;> rw [h] <;> intro hc <;> cases hc

theorem cid_ne_slh (n : ℕ) (S L : Mat) (H : SVal) : cid n ≠ .slh S L H := by
  rcases cid_eq_czero_or_cid1_or_concat n with h | h | h <;> rw [h] <;> intro hc <;> cases hc

theorem cid_ne_sym (n m : ℕ) (a : String) : cid n ≠ .sym a m := by
  rcases cid_eq_czero_or_cid1_or_concat n with h | h | h <;> rw [h] <;> intro hc <;> cases hc

theorem cdimList_replicate_cid1 (n : ℕ) :
    Circuit.cdim.cdimList (List.replicate n .cid1) = n := by
  induction n with
  | zero => simp [Circuit.cdim.cdimList]
  | succ n ih =>
      simp only [List.replicate_succ, Circuit.cdim.cdimList, ih]
      simp only [Circuit.cdim]
      omega

theorem cdim_cid (n : ℕ) : (cid n).cdim = n := by
  unfold cid
  split
  · simp only [Circuit.cdim]
    omega
  · split
    · simp only [Circuit.cdim]
      omega
    · show Circuit.cdim.cdimList (List.replicate n .cid1) = n
      exact cdimList_replicate_cid1 n

theorem permCreate_valid (p : List ℕ) (hp : checkPermutation p = true) :
    permCreate p = .ok (cpermOf p) := by
  unfold permCreate cpermOf
  rw [if_neg (by simp [hp])]
  by_cases h : p = List.range p.length
  · rw [if_pos h, if_pos h]
  · rw [if_neg h, if_neg h]

/-! ## Claim C10 -/

/-- C10: the constructor `CPermutation.create` never returns a permutation
node for an identity image tuple: for every `n`, creating a channel
permutation from `(0, 1, …, n-1)` returns the `n`-channel identity circuit
instead of a `CPermutation` instance, and every `CPermutation` node the
constructor returns carries a non-identity image tuple. -/
theorem c10_create_never_identity_node :
    (∀ n : ℕ, permCreate (List.range n) = .ok (cid n)) ∧
    (∀ p q : List ℕ, permCreate p = .ok (.cperm q) →
      q = p ∧ p ≠ List.range p.length) := by
  constructor
  · intro n
    have hv : checkPermutation (List.range n) = true := by
      unfold checkPermutation
      simp
    rw [permCreate_valid _ hv]
    unfold cpermOf
    rw [if_pos (by simp)]
    simp
  · intro p q h
    unfold permCreate at h
    split at h
    · cases h
    · split at h
      · rename_i hid
        exfalso
        have := cid_ne_cperm p.length q
        simp only [Except.ok.injEq] at h
        exact this h
      · rename_i hid
        simp only [Except.ok.injEq, Circuit.cperm.injEq] at h
        exact ⟨h.symm, hid⟩

/-- Witness for C10 at concrete inputs: the identity tuple of length 3
collapses to `cid 3`, and the node built from `(1,0)` carries `(1,0)`,
which is not the identity tuple. -/
theorem c10_witness :
    permCreate (List.range 3) = .ok (cid 3) ∧
    ([1, 0] = [1, 0] ∧ [1, 0] ≠ List.range ([1, 0] : List ℕ).length) :=
  ⟨c10_create_never_identity_node.1 3,
   c10_create_never_identity_node.2 [1, 0] [1, 0] (by decide)⟩

/-! ## Claim C4 -/

/-- C4: representation-level feedback applied to a concrete SLH triple with
plain number entries and `S[n-1, n-1]` equal to the multiplicative identity
(here the 2×2 identity scattering matrix, the SLH of `cid(2)`) does not
fail: the division `1 / (1 − S[n-1, n-1])` is performed symbolically
(sympy's `1/0` is complex infinity) and an SLH triple full of undefined
entries is returned with no error raised. -/
theorem c4_slh_feedback_unit_reflectivity_silent :
    slhFeedback 60 (Mat.identityM 2) (Mat.zerosM 2 1) (SVal.int 0) 1 1
      = .ok (.slh [[SVal.nan]] [[SVal.nan]] SVal.nan) := by decide

/-! ## Claim C3 -/

/-- C3 counterexample: for the 1-channel circuit symbols `A` and `B`, the
feedback of `A + B` from out-port 0 (A's output) into in-port 1 (B's input)
is the series product `B << A` (signal passes `A` first), not `A << B` as
the claim states. -/
theorem c3_counterexample :
    circuitFeedback 60 (.concat [.sym "A" 1, .sym "B" 1]) (some 0) (some 1)
        ≠ .ok (.series [.sym "A" 1, .sym "B" 1]) ∧
    circuitFeedback 60 (.concat [.sym "A" 1, .sym "B" 1]) (some 0) (some 1)
        = .ok (.series [.sym "B" 1, .sym "A" 1]) := by decide

/-- C3 amended: for any 1-channel circuit symbols `A` and `B`, feedback of
`A + B` connecting `A`'s output port (out-index 0) to `B`'s input port
(in-index 1) collapses to the plain series connection `B << A` (the signal
passes `A` first, then `B`; in the source's operand order the downstream
circuit is written first), with no residual feedback node. -/
theorem c3_amended_cross_block_feedback (a b : String) (fuel : ℕ) :
    circuitFeedback (fuel + 30) (.concat [.sym a 1, .sym b 1]) (some 0) (some 1)
      = .ok (.series [.sym b 1, .sym a 1]) := rfl

/-! ## Claim C8 -/

/-- C8 counterexample: the operands `cid(1)` and the 2-channel symbol `A` do
not share one channel dimension, yet constructing their series product does
not raise: the neutral-element filter drops the identity before the
`check_cdims` validation runs, and the construction silently returns `A`. -/
theorem c8_counterexample :
    (Circuit.cid1.cdim ≠ (Circuit.sym "A" 2).cdim) ∧
    seriesCreate 60 [.cid1, .sym "A" 2] = .ok (.sym "A" 2) := by decide

/-- C8 amended: constructing a series product raises the dimension-mismatch
`ValueError` eagerly whenever, after associative flattening and dropping of
neutral identity operands, at least two operands remain and they do not all
share one channel dimension. -/
theorem c8_amended_mismatch_raises (fuel : ℕ) (ops : List Circuit)
    (c d : Circuit) (rest : List Circuit)
    (hf : filterNeutralSeries (flattenSeries ops) = c :: d :: rest)
    (hc : ∃ x ∈ c :: d :: rest, x.cdim ≠ c.cdim) :
    seriesCreate (fuel + 1) ops = .error .valueError := by
  have hany : cdimMismatch c (c :: d :: rest) = true := by
    unfold cdimMismatch
    rcases hc with ⟨x, hx, hxd⟩
    rw [List.any_eq_true]
    refine ⟨x, hx, ?_⟩
    simp [hxd]
  rw [seriesCreate]
  simp only [hf]
  rw [if_pos hany]

/-- Witness for C8 amended: symbols of dimensions 2 and 3 in series raise the
dimension-mismatch error. -/
theorem c8_witness :
    seriesCreate 1 [.sym "A" 2, .sym "B" 3] = .error .valueError :=
  c8_amended_mismatch_raises 0 [.sym "A" 2, .sym "B" 3]
    (.sym "A" 2) (.sym "B" 3) [] (by decide) ⟨.sym "B" 3, by decide⟩

/-! ## Claim C2 -/

theorem getLastQ_replicate (n : ℕ) (c : Circuit) (h : 1 ≤ n) :
    (List.replicate n c).getLast? = some c := by
  induction n with
  | zero => omega
  | succ n ih =>
      match n, ih with
      | 0, _ => simp
      | m + 1, ih =>
          rw [List.replicate_succ, List.replicate_succ, List.getLast?_cons_cons,
            ← List.replicate_succ]
          exact ih (by omega)

/-- C2: feedback applied with the default last-port indices to the
`n`-channel identity circuit does not return an `(n-1)`-channel circuit for
any `n ≥ 2`: `Concatenation._feedback` recurses into its last operand, the
single-channel identity, whose feedback construction raises `ValueError`
because its channel dimension is one.  This contradicts the claim that
`feedback(identity(n))` succeeds with `cdim n-1`; the error evaluates the
code at the failing input. -/
theorem c2_feedback_identity_raises (n fuel : ℕ) (h : 2 ≤ n) :
    circuitFeedback (fuel + 4) (cid n) none none = .error .valueError := by
  have hcid : cid n = .concat (List.replicate n .cid1) := by
    unfold cid
    rw [if_neg (by omega), if_neg (by omega)]
  rw [hcid]
  show circuitFeedback ((fuel + 3) + 1) _ none none = _
  simp only [circuitFeedback]
  simp only [Option.getD_none]
  show concatFeedback ((fuel + 2) + 1) _ _ _ = _
  simp only [concatFeedback]
  rw [if_pos ⟨trivial, trivial⟩]
  rw [getLastQ_replicate n .cid1 (by omega)]
  show (match circuitFeedback ((fuel + 1) + 1) .cid1 none none with
        | .error e => Except.error e
        | .ok fbLast =>
            concatCreate (fuel + 2)
              ((List.replicate n Circuit.cid1).dropLast ++ [fbLast])) = _
  simp only [circuitFeedback]
  simp only [Option.getD_none]
  show (match feedbackCreate (fuel + 1) .cid1 0 0 with
        | .error e => Except.error e
        | .ok fbLast =>
            concatCreate (fuel + 2)
              ((List.replicate n Circuit.cid1).dropLast ++ [fbLast])) = _
  simp only [feedbackCreate]
  rfl

/-- Witness for C2 at the concrete failing input `cid 2`. -/
theorem c2_witness :
    circuitFeedback 4 (cid 2) none none = .error .valueError :=
  c2_feedback_identity_raises 2 0 (by decide)

end QNET
namespace QNET

theorem map_getD_range (p : List ℕ) :
    (List.range p.length).map (fun i => p.getD i 0) = p := by
  apply List.ext_getElem
  · simp
  · intro i h1 h2
    simp only [List.getElem_map, List.getElem_range]
    rw [List.getD_eq_getElem p 0 h2]

theorem checkPermutation_perm (p : List ℕ) (hp : checkPermutation p = true) :
    List.Perm p (List.range p.length) := by
  unfold checkPermutation at hp
  exact of_decide_eq_true hp

theorem checkPermutation_mem (p : List ℕ) (hp : checkPermutation p = true)
    (i : ℕ) (hi : i < p.length) : i ∈ p := by
  have := checkPermutation_perm p hp
  exact this.mem_iff.mpr (List.mem_range.mpr hi)

theorem checkPermutation_lt (p : List ℕ) (hp : checkPermutation p = true)
    (x : ℕ) (hx : x ∈ p) : x < p.length := by
  have := checkPermutation_perm p hp
  exact List.mem_range.mp (this.mem_iff.mp hx)

theorem composePerm_length (p q : List ℕ) :
    (composePerm p q).length = q.length := by
  simp [composePerm]

theorem composePerm_valid (p q : List ℕ) (hp : checkPermutation p = true)
    (hq : checkPermutation q = true) (hlen : q.length = p.length) :
    checkPermutation (composePerm p q) = true := by
  unfold checkPermutation
  apply decide_eq_true
  have h1 : List.Perm q (List.range p.length) := hlen ▸ checkPermutation_perm q hq
  have h2 : List.Perm (composePerm p q)
      ((List.range p.length).map (fun i => p.getD i 0)) := h1.map _
  rw [map_getD_range p] at h2
  have h3 : List.Perm p (List.range p.length) := checkPermutation_perm p hp
  have h4 := h2.trans h3
  rwa [composePerm_length, hlen]

theorem composePerm_id_left (q : List ℕ) (n : ℕ) (hq : checkPermutation q = true)
    (hlen : q.length = n) : composePerm (List.range n) q = q := by
  unfold composePerm
  have : ∀ x ∈ q, (List.range n).getD x 0 = x := by
    intro x hx
    have hxn : x < n := hlen ▸ checkPermutation_lt q hq x hx
    rw [List.getD_eq_getElem _ _ (by simpa using hxn)]
    simp
  calc q.map (fun j => (List.range n).getD j 0) = q.map id := List.map_congr_left this
  _ = q := List.map_id q

theorem composePerm_id_right (p : List ℕ) :
    composePerm p (List.range p.length) = p := map_getD_range p

theorem composePerm_self_inv (p : List ℕ) (hp : checkPermutation p = true) :
    composePerm p (invertPermutation p) = List.range p.length := by
  unfold composePerm invertPermutation
  rw [List.map_map]
  apply List.ext_getElem
  · simp
  · intro i h1 h2
    simp only [List.getElem_map, List.getElem_range, Function.comp_apply]
    have hmem : i ∈ p := checkPermutation_mem p hp i (by simpa using h2)
    have hidx : p.indexOf i < p.length := List.indexOf_lt_length.mpr hmem
    rw [List.getD_eq_getElem p 0 hidx]
    exact List.getElem_indexOf hidx

theorem checkPermutation_nodup (p : List ℕ) (hp : checkPermutation p = true) :
    p.Nodup := by
  have := checkPermutation_perm p hp
  exact this.nodup_iff.mpr (List.nodup_range _)

theorem composePerm_inv_self (p : List ℕ) (hp : checkPermutation p = true) :
    composePerm (invertPermutation p) p = List.range p.length := by
  unfold composePerm invertPermutation
  apply List.ext_getElem
  · simp
  · intro i h1 h2
    simp only [List.length_map] at h1
    simp only [List.getElem_map, List.getElem_range]
    have hplt : p[i] < p.length := checkPermutation_lt p hp _ (List.getElem_mem h1)
    rw [List.getD_eq_getElem _ 0 (by simpa using hplt)]
    simp only [List.getElem_map, List.getElem_range]
    exact List.indexOf_getElem (checkPermutation_nodup p hp) i h1

theorem isSeriesNeutral_cperm (p : List ℕ) :
    isSeriesNeutral (.cperm p) = false := by
  unfold isSeriesNeutral
  simp only [decide_eq_false_iff_not]
  intro h
  exact cid_ne_cperm _ p h.symm

theorem isSeriesNeutral_cid (n : ℕ) : isSeriesNeutral (cid n) = true := by
  unfold isSeriesNeutral
  rw [cdim_cid]
  simp

theorem cid_not_series (n : ℕ) : ∀ xs, cid n ≠ .series xs := by
  intro xs
  rcases cid_eq_czero_or_cid1_or_concat n with h | h | h <;> rw [h] <;> intro hc <;> cases hc

theorem cdim_cpermOf (w : List ℕ) : (cpermOf w).cdim = w.length := by
  unfold cpermOf
  split
  · rw [cdim_cid]
  · rfl

theorem flattenSeries_nil : flattenSeries [] = [] := rfl

theorem flattenSeries_cons_nonseries (c : Circuit) (rest : List Circuit)
    (h : ∀ xs, c ≠ .series xs) :
    flattenSeries (c :: rest) = c :: flattenSeries rest := by
  unfold flattenSeries
  match c, h with
  | .slh S L H, _ => rfl
  | .sym a n, _ => rfl
  | .cid1, _ => rfl
  | .czero, _ => rfl
  | .series xs, h => exact absurd rfl (h xs)
  | .concat xs, _ => rfl
  | .cperm p, _ => rfl
  | .fb c o i, _ => rfl
  | .sinv c, _ => rfl

theorem cperm_not_series (p : List ℕ) : ∀ xs, Circuit.cperm p ≠ .series xs := by
  intro xs hc
  cases hc

theorem filterNeutralSeries_nil : filterNeutralSeries [] = [] := rfl

theorem filterNeutralSeries_cons_neutral (c : Circuit) (rest : List Circuit)
    (h : isSeriesNeutral c = true) :
    filterNeutralSeries (c :: rest) = filterNeutralSeries rest := by
  unfold filterNeutralSeries
  rw [List.filter_cons]
  simp [h]

theorem filterNeutralSeries_cons_keep (c : Circuit) (rest : List Circuit)
    (h : isSeriesNeutral c = false) :
    filterNeutralSeries (c :: rest) = c :: filterNeutralSeries rest := by
  unfold filterNeutralSeries
  rw [List.filter_cons]
  simp [h]

theorem cdimMismatch_false (c : Circuit) (ops : List Circuit)
    (h : ∀ x ∈ ops, x.cdim = c.cdim) : cdimMismatch c ops = false := by
  unfold cdimMismatch
  rw [List.any_eq_false]
  intro x hx
  simp [h x hx]

theorem cpermOf_id (w : List ℕ) (h : w = List.range w.length) :
    cpermOf w = cid w.length := by
  unfold cpermOf
  rw [if_pos h]

theorem cpermOf_ne (w : List ℕ) (h : ¬ w = List.range w.length) :
    cpermOf w = .cperm w := by
  unfold cpermOf
  rw [if_neg h]

theorem seriesCreate_single_cpermOf (fuel : ℕ) (w : List ℕ) :
    seriesCreate (fuel + 1) [cpermOf w] = .ok (cpermOf w) := by
  by_cases hid : w = List.range w.length
  · rw [cpermOf_id w hid]
    rw [seriesCreate]
    rw [flattenSeries_cons_nonseries _ _ (cid_not_series w.length), flattenSeries_nil]
    rw [filterNeutralSeries_cons_neutral _ _ (isSeriesNeutral_cid w.length),
      filterNeutralSeries_nil]
    simp [cdim_cid]
  · rw [cpermOf_ne w hid]
    rw [seriesCreate]
    rw [flattenSeries_cons_nonseries _ _ (cperm_not_series w), flattenSeries_nil]
    rw [filterNeutralSeries_cons_keep _ _ (isSeriesNeutral_cperm w),
      filterNeutralSeries_nil]

theorem seriesScan_pair_step (fuel : ℕ) (a b : Circuit) :
    seriesScan (fuel + 1) [a, b] =
      (match seriesPairRule fuel a b with
       | .error e => .error e
       | .ok (some c) => .ok (some [c])
       | .ok none =>
          match seriesScan fuel [b] with
          | .error e => .error e
          | .ok none => .ok none
          | .ok (some tail) => .ok (some (a :: tail))) := rfl

theorem seriesPairRule_cperm (fuel : ℕ) (p q : List ℕ) :
    seriesPairRule (fuel + 1) (.cperm p) (.cperm q) =
      (match permCreate (composePerm p q) with
       | .error e => .error e
       | .ok c => .ok (some c)) := rfl

theorem seriesCreate_cperm_pair (fuel : ℕ) (p q : List ℕ)
    (hp : checkPermutation p = true) (hq : checkPermutation q = true)
    (hlen : q.length = p.length) :
    seriesCreate (fuel + 3) [cpermOf p, cpermOf q]
      = .ok (cpermOf (composePerm p q)) := by
  have hcv : checkPermutation (composePerm p q) = true :=
    composePerm_valid p q hp hq hlen
  by_cases hpID : p = List.range p.length
  · by_cases hqID : q = List.range q.length
    · have hcomp : composePerm p q = p := by
        conv => lhs; rw [hqID, hlen]
        exact composePerm_id_right p
      rw [hcomp]
      rw [cpermOf_id p hpID, cpermOf_id q hqID]
      rw [seriesCreate]
      rw [flattenSeries_cons_nonseries _ _ (cid_not_series p.length),
          flattenSeries_cons_nonseries _ _ (cid_not_series q.length),
          flattenSeries_nil]
      rw [filterNeutralSeries_cons_neutral _ _ (isSeriesNeutral_cid p.length),
          filterNeutralSeries_cons_neutral _ _ (isSeriesNeutral_cid q.length),
          filterNeutralSeries_nil]
      simp [cdim_cid]
    · have hcomp : composePerm p q = q := by
        rw [hpID]
        exact composePerm_id_left q p.length hq hlen
      rw [hcomp]
      rw [cpermOf_id p hpID, cpermOf_ne q hqID]
      rw [seriesCreate]
      rw [flattenSeries_cons_nonseries _ _ (cid_not_series p.length),
          flattenSeries_cons_nonseries _ _ (cperm_not_series q),
          flattenSeries_nil]
      rw [filterNeutralSeries_cons_neutral _ _ (isSeriesNeutral_cid p.length),
          filterNeutralSeries_cons_keep _ _ (isSeriesNeutral_cperm q),
          filterNeutralSeries_nil]
  · by_cases hqID : q = List.range q.length
    · have hcomp : composePerm p q = p := by
        conv => lhs; rw [hqID, hlen]
        exact composePerm_id_right p
      rw [hcomp]
      rw [cpermOf_ne p hpID, cpermOf_id q hqID]
      rw [seriesCreate]
      rw [flattenSeries_cons_nonseries _ _ (cperm_not_series p),
          flattenSeries_cons_nonseries _ _ (cid_not_series q.length),
          flattenSeries_nil]
      rw [filterNeutralSeries_cons_keep _ _ (isSeriesNeutral_cperm p),
          filterNeutralSeries_cons_neutral _ _ (isSeriesNeutral_cid q.length),
          filterNeutralSeries_nil]
    · rw [cpermOf_ne p hpID, cpermOf_ne q hqID]
      rw [seriesCreate]
      rw [flattenSeries_cons_nonseries _ _ (cperm_not_series p),
          flattenSeries_cons_nonseries _ _ (cperm_not_series q),
          flattenSeries_nil]
      rw [filterNeutralSeries_cons_keep _ _ (isSeriesNeutral_cperm p),
          filterNeutralSeries_cons_keep _ _ (isSeriesNeutral_cperm q),
          filterNeutralSeries_nil]
      have hmm : cdimMismatch (.cperm p) [.cperm p, .cperm q] = false := by
        apply cdimMismatch_false
        intro x hx
        rcases List.mem_cons.mp hx with h | hx2
        · rw [h]
        · rcases List.mem_cons.mp hx2 with h | h
          · rw [h]
            show q.length = p.length
            exact hlen
          · cases h
      show (if cdimMismatch (.cperm p) [.cperm p, .cperm q] = true
            then (Except.error CErr.valueError : Except CErr Circuit)
            else match seriesScan (fuel + 2) [.cperm p, .cperm q] with
                 | .error e => .error e
                 | .ok none => .ok (.series [.cperm p, .cperm q])
                 | .ok (some newOps) => seriesCreate (fuel + 2) newOps)
          = .ok (cpermOf (composePerm p q))
      rw [if_neg (by simp [hmm])]
      rw [seriesScan_pair_step, seriesPairRule_cperm, permCreate_valid _ hcv]
      show seriesCreate (fuel + 2) [cpermOf (composePerm p q)] = _
      exact seriesCreate_single_cpermOf (fuel + 1) (composePerm p q)

/-- C6: for all valid permutations `p` and `q` of the same size `n`,
series-composing `CPermutation.create p` with `CPermutation.create q` yields
the circuit `CPermutation.create` builds for the pointwise composition
`i ↦ p[q[i]]` — a valid `n`-channel permutation circuit, collapsing to the
`n`-channel identity circuit when that composition is the identity tuple. -/
theorem c6_perm_series_composition (fuel : ℕ) (p q : List ℕ)
    (hp : checkPermutation p = true) (hq : checkPermutation q = true)
    (hlen : q.length = p.length) :
    checkPermutation (composePerm p q) = true ∧
    composePerm p q = q.map (fun i => p.getD i 0) ∧
    (cpermOf (composePerm p q)).cdim = p.length ∧
    seriesCreate (fuel + 3) [cpermOf p, cpermOf q]
      = .ok (cpermOf (composePerm p q)) := by
  refine ⟨composePerm_valid p q hp hq hlen, rfl, ?_, ?_⟩
  · rw [cdim_cpermOf, composePerm_length, hlen]
  · exact seriesCreate_cperm_pair fuel p q hp hq hlen

theorem c6_witness :
    checkPermutation (composePerm [1, 0] [1, 0]) = true ∧
    seriesCreate (60 + 3) [cpermOf [1, 0], cpermOf [1, 0]] = .ok (cid 2) := by
  have h := c6_perm_series_composition 60 [1, 0] [1, 0]
    (by decide) (by decide) (by decide)
  refine ⟨h.1, ?_⟩
  rw [h.2.2.2]
  decide

/-- `Feedback.create` on a circuit-symbol operand with feedback port indices
far outside `[0, cdim)` raises nothing: it returns the unreduced feedback
node carrying the out-of-range indices. -/
theorem c7_counterexample :
    feedbackCreate 60 (.sym "A" 2) 5 7 = .ok (.fb (.sym "A" 2) 5 7) := rfl

/-- C7: `Feedback.create` validates only the operand channel dimension
(rejecting `cdim < 2`), never the port indices: for every circuit symbol of
channel dimension `n ≥ 2` and arbitrary `out_index` and `in_index` — in
range or not — it returns the unreduced feedback node.  Out-of-range
indices are not a construction-time error for atom operands; they surface
only inside the `_feedback` delegates of reducible operands. -/
theorem c7_amended_no_range_check (a : String) (n o i fuel : ℕ) (h : 2 ≤ n) :
    feedbackCreate (fuel + 1) (.sym a n) o i = .ok (.fb (.sym a n) o i) := by
  rw [feedbackCreate]
  show (if n = 0 then (Except.error CErr.valueError : Except CErr Circuit)
        else if n = 1 then .error .valueError
        else .ok (.fb (.sym a n) o i)) = .ok (.fb (.sym a n) o i)
  rw [if_neg (by omega), if_neg (by omega)]
  all_goals simp

theorem c7_witness :
    2 ≤ 2 ∧ feedbackCreate 61 (.sym "B" 2) 9 9 = .ok (.fb (.sym "B" 2) 9 9) :=
  ⟨by decide, c7_amended_no_range_check "B" 2 9 9 60 (by decide)⟩

theorem isSeriesNeutral_slh (S L : Mat) (H : SVal) :
    isSeriesNeutral (.slh S L H) = false := by
  unfold isSeriesNeutral
  simp only [decide_eq_false_iff_not]
  intro h
  exact cid_ne_slh _ S L H h.symm

theorem slh_not_series (S L : Mat) (H : SVal) :
    ∀ xs, Circuit.slh S L H ≠ .series xs := by
  intro xs hc
  cases hc

theorem seriesPairRule_slh (fuel : ℕ) (S1 L1 : Mat) (H1 : SVal)
    (S2 L2 : Mat) (H2 : SVal) :
    seriesPairRule (fuel + 1) (.slh S1 L1 H1) (.slh S2 L2 H2)
      = .ok (some (seriesWithSLH S1 L1 H1 S2 L2 H2)) := rfl

theorem seriesCreate_single_slh (fuel : ℕ) (S L : Mat) (H : SVal) :
    seriesCreate (fuel + 1) [.slh S L H] = .ok (.slh S L H) := by
  rw [seriesCreate]
  rw [flattenSeries_cons_nonseries _ _ (slh_not_series S L H), flattenSeries_nil]
  rw [filterNeutralSeries_cons_keep _ _ (isSeriesNeutral_slh S L H),
    filterNeutralSeries_nil]

/-- C5: series composition of two SLH triples, `(S1, L1, H1)` applied after
`(S2, L2, H2)`, folds (through the second binary rule of
`SeriesProduct._binary_rules` and `SLH.series_with_slh`) into the single SLH
triple the specification's formula describes: `S = S1*S2`,
`L = S1*L2 + L1`, `H = H1 + H2 + Im(adjoint(L1)*S1*L2)` with the
imaginary-part correction extracted as the entry of the resulting 1x1
matrix. -/
theorem c5_slh_series_fold (fuel : ℕ) (S1 L1 : Mat) (H1 : SVal)
    (S2 L2 : Mat) (H2 : SVal) (h : S2.length = S1.length) :
    seriesCreate (fuel + 3) [.slh S1 L1 H1, .slh S2 L2 H2]
      = .ok (specSeriesFold S1 L1 H1 S2 L2 H2) := by
  rw [seriesCreate]
  rw [flattenSeries_cons_nonseries _ _ (slh_not_series S1 L1 H1),
      flattenSeries_cons_nonseries _ _ (slh_not_series S2 L2 H2),
      flattenSeries_nil]
  rw [filterNeutralSeries_cons_keep _ _ (isSeriesNeutral_slh S1 L1 H1),
      filterNeutralSeries_cons_keep _ _ (isSeriesNeutral_slh S2 L2 H2),
      filterNeutralSeries_nil]
  have hmm : cdimMismatch (.slh S1 L1 H1) [.slh S1 L1 H1, .slh S2 L2 H2]
      = false := by
    apply cdimMismatch_false
    intro x hx
    rcases List.mem_cons.mp hx with h1 | hx2
    · rw [h1]
    · rcases List.mem_cons.mp hx2 with h1 | h1
      · rw [h1]
        show S2.length = S1.length
        exact h
      · cases h1
  show (if cdimMismatch (.slh S1 L1 H1) [.slh S1 L1 H1, .slh S2 L2 H2] = true
        then (Except.error CErr.valueError : Except CErr Circuit)
        else match seriesScan (fuel + 2) [.slh S1 L1 H1, .slh S2 L2 H2] with
             | .error e => .error e
             | .ok none => .ok (.series [.slh S1 L1 H1, .slh S2 L2 H2])
             | .ok (some newOps) => seriesCreate (fuel + 2) newOps)
      = .ok (specSeriesFold S1 L1 H1 S2 L2 H2)
  rw [if_neg (by simp [hmm])]
  rw [seriesScan_pair_step, seriesPairRule_slh]
  show seriesCreate (fuel + 2) [seriesWithSLH S1 L1 H1 S2 L2 H2]
      = .ok (specSeriesFold S1 L1 H1 S2 L2 H2)
  exact seriesCreate_single_slh (fuel + 1) _ _ _

theorem c5_witness :
    ([[SVal.sv "a"]] : Mat).length = ([[SVal.sv "b"]] : Mat).length ∧
    seriesCreate (60 + 3)
      [.slh [[SVal.sv "b"]] [[SVal.sv "l1"]] (SVal.sv "h1"),
       .slh [[SVal.sv "a"]] [[SVal.sv "l2"]] (SVal.sv "h2")]
      = .ok (specSeriesFold [[SVal.sv "b"]] [[SVal.sv "l1"]] (SVal.sv "h1")
          [[SVal.sv "a"]] [[SVal.sv "l2"]] (SVal.sv "h2")) :=
  ⟨rfl, c5_slh_series_fold 60 [[SVal.sv "b"]] [[SVal.sv "l1"]] (SVal.sv "h1")
    [[SVal.sv "a"]] [[SVal.sv "l2"]] (SVal.sv "h2") rfl⟩

theorem sym_not_series (s : String) (n : ℕ) :
    ∀ xs, Circuit.sym s n ≠ .series xs := by
  intro xs hc
  cases hc

theorem sinv_not_series (c : Circuit) :
    ∀ xs, Circuit.sinv c ≠ .series xs := by
  intro xs hc
  cases hc

theorem cid_ne_sinv (n : ℕ) (c : Circuit) : cid n ≠ .sinv c := by
  rcases cid_eq_czero_or_cid1_or_concat n with h | h | h <;> rw [h] <;> intro hc <;> cases hc

theorem isSeriesNeutral_sym (s : String) (n : ℕ) :
    isSeriesNeutral (.sym s n) = false := by
  unfold isSeriesNeutral
  simp only [decide_eq_false_iff_not]
  intro h
  exact cid_ne_sym _ _ s h.symm

theorem isSeriesNeutral_sinv (c : Circuit) :
    isSeriesNeutral (.sinv c) = false := by
  unfold isSeriesNeutral
  simp only [decide_eq_false_iff_not]
  intro h
  exact cid_ne_sinv _ c h.symm

theorem invertPermutation_length (p : List ℕ) :
    (invertPermutation p).length = p.length := by
  simp [invertPermutation]

theorem checkPermutation_range (n : ℕ) :
    checkPermutation (List.range n) = true := by
  unfold checkPermutation
  apply decide_eq_true
  rw [List.length_range]

theorem permCreate_range (n : ℕ) :
    permCreate (List.range n) = .ok (cid n) := by
  unfold permCreate
  rw [if_neg (by simp [checkPermutation_range])]
  rw [if_pos (by rw [List.length_range])]
  rw [List.length_range]

theorem seriesCreate_single_cid (fuel n : ℕ) :
    seriesCreate (fuel + 1) [cid n] = .ok (cid n) := by
  rw [seriesCreate]
  rw [flattenSeries_cons_nonseries _ _ (cid_not_series n), flattenSeries_nil]
  rw [filterNeutralSeries_cons_neutral _ _ (isSeriesNeutral_cid n),
    filterNeutralSeries_nil]
  simp [cdim_cid]

theorem gcbs_single (n : ℕ) : gcbs [n] [n] = .ok [n] := by
  show gcbsAux 3 [n] [n] = .ok [n]
  rw [gcbsAux]
  rw [if_neg (by simp)]
  have hEat : gcbsEat 1 ([] : List ℕ) ([] : List ℕ) n n
      = .ok (n, ([] : List ℕ), ([] : List ℕ)) := by
    show (if n = n
          then (Except.ok (n, ([] : List ℕ), ([] : List ℕ)) :
            Except CErr (ℕ × List ℕ × List ℕ))
          else if n < n then .error .algebraError else .error .algebraError) = _
    rw [if_pos rfl]
  rw [show ([] : List ℕ).length + ([] : List ℕ).length + 1 = 1 from rfl]
  rw [hEat]
  rfl

theorem factorPermRule_sym (fuel : ℕ) (s : String) (n : ℕ) (b : Circuit) :
    factorPermRule (fuel + 1) (.sym s n) b = .ok none := rfl

theorem factorPermRule_sinv (fuel : ℕ) (c b : Circuit) :
    factorPermRule (fuel + 1) (.sinv c) b = .ok none := rfl

theorem tensorRule_sym_sinv (fuel : ℕ) (s : String) (n : ℕ) :
    tensorRule (fuel + 1) (.sym s n) (.sinv (.sym s n)) = .ok none := by
  show (match gcbs (blockStructure (.sym s n)) (blockStructure (.sinv (.sym s n))) with
        | .error e => .error e
        | .ok res =>
          match res with
          | [] => .ok none
          | [_] => .ok none
          | res =>
            match getBlocks fuel (.sym s n) res with
            | .error e => .error e
            | .ok blocks =>
              match getBlocks fuel (.sinv (.sym s n)) res with
              | .error e => .error e
              | .ok oblocks =>
                match seriesZip fuel blocks oblocks with
                | .error e => .error e
                | .ok pairs =>
                  match concatCreate fuel pairs with
                  | .error e => .error e
                  | .ok c => .ok (some c)) = (.ok none : Except CErr (Option Circuit))
  have hb1 : blockStructure (Circuit.sym s n) = [n] := rfl
  have hb2 : blockStructure (Circuit.sinv (.sym s n)) = [n] := rfl
  rw [hb1, hb2, gcbs_single]

theorem tensorRule_sinv_sym (fuel : ℕ) (s : String) (n : ℕ) :
    tensorRule (fuel + 1) (.sinv (.sym s n)) (.sym s n) = .ok none := by
  show (match gcbs (blockStructure (.sinv (.sym s n))) (blockStructure (.sym s n)) with
        | .error e => .error e
        | .ok res =>
          match res with
          | [] => .ok none
          | [_] => .ok none
          | res =>
            match getBlocks fuel (.sinv (.sym s n)) res with
            | .error e => .error e
            | .ok blocks =>
              match getBlocks fuel (.sym s n) res with
              | .error e => .error e
              | .ok oblocks =>
                match seriesZip fuel blocks oblocks with
                | .error e => .error e
                | .ok pairs =>
                  match concatCreate fuel pairs with
                  | .error e => .error e
                  | .ok c => .ok (some c)) = (.ok none : Except CErr (Option Circuit))
  have hb1 : blockStructure (Circuit.sym s n) = [n] := rfl
  have hb2 : blockStructure (Circuit.sinv (.sym s n)) = [n] := rfl
  rw [hb1, hb2, gcbs_single]

theorem seriesPairRule_sym_sinv (fuel : ℕ) (s : String) (n : ℕ) :
    seriesPairRule (fuel + 2) (.sym s n) (.sinv (.sym s n))
      = .ok (some (cid n)) := by
  show (match tensorRule (fuel + 1) (.sym s n) (.sinv (.sym s n)) with
        | .error e => .error e
        | .ok (some c) => .ok (some c)
        | .ok none =>
          match factorPermRule (fuel + 1) (.sym s n) (.sinv (.sym s n)) with
          | .error e => .error e
          | .ok (some c) => .ok (some c)
          | .ok none =>
            if Circuit.sinv (.sym s n) = .sinv (.sym s n)
            then .ok (some (cid n))
            else .ok none) = (.ok (some (cid n)) : Except CErr (Option Circuit))
  rw [tensorRule_sym_sinv, factorPermRule_sym]
  rw [if_pos rfl]

theorem seriesPairRule_sinv_sym (fuel : ℕ) (s : String) (n : ℕ) :
    seriesPairRule (fuel + 2) (.sinv (.sym s n)) (.sym s n)
      = .ok (some (cid n)) := by
  show (match tensorRule (fuel + 1) (.sinv (.sym s n)) (.sym s n) with
        | .error e => .error e
        | .ok (some c) => .ok (some c)
        | .ok none =>
          match factorPermRule (fuel + 1) (.sinv (.sym s n)) (.sym s n) with
          | .error e => .error e
          | .ok (some c) => .ok (some c)
          | .ok none =>
            if Circuit.sym s n = .sinv (.sinv (.sym s n))
            then .ok (some (cid n))
            else if Circuit.sym s n = .sym s n
                 then .ok (some (cid n))
                 else .ok none) = (.ok (some (cid n)) : Except CErr (Option Circuit))
  rw [tensorRule_sinv_sym, factorPermRule_sinv]
  rw [if_neg (by intro h; cases h), if_pos rfl]

/-- A `SeriesInverse` of a feedback node is rewritten structurally — the
inverse moves inside the loop — so the two series operands are not literal
`SeriesInverse` partners and neither collapse rule of
`SeriesProduct._binary_rules` fires: the product stays an unreduced
`SeriesProduct` node instead of the claimed `cid(2)`. -/
theorem c1_counterexample :
    (sinvCreate 60 (.fb (.sym "A" 3) 2 2)
       = .ok (.fb (.sinv (.sym "A" 3)) 2 2)) ∧
    (seriesCreate 60 [.fb (.sym "A" 3) 2 2, .fb (.sinv (.sym "A" 3)) 2 2]
       = .ok (.series [.fb (.sym "A" 3) 2 2, .fb (.sinv (.sym "A" 3)) 2 2])) ∧
    Circuit.series [.fb (.sym "A" 3) 2 2, .fb (.sinv (.sym "A" 3)) 2 2]
      ≠ cid 2 := by
  refine ⟨by decide, by decide, by decide⟩

/-- C1: the inverse-collapse law `X << seriesInverse(X) == seriesInverse(X)
<< X == cid(X.cdim)` holds when the second operand is the literal
`SeriesInverse` partner of the first — for circuit symbols, where
`SeriesInverse.create` keeps the formal `SeriesInverse` node, and for
channel permutations, where it builds the inverse bijection — but not for
every valid circuit: operands whose `SeriesInverse.create` rewrites
structurally (for example feedback nodes) never match the collapse rules
and the product stays unreduced. -/
theorem c1_amended_inverse_collapse (s : String) (n fuel : ℕ) (p : List ℕ)
    (hp : checkPermutation p = true) :
    (seriesCreate (fuel + 4) [.sym s n, .sinv (.sym s n)] = .ok (cid n)) ∧
    (seriesCreate (fuel + 4) [.sinv (.sym s n), .sym s n] = .ok (cid n)) ∧
    (seriesCreate (fuel + 4) [.cperm p, .cperm (invertPermutation p)]
       = .ok (cid p.length)) ∧
    (seriesCreate (fuel + 4) [.cperm (invertPermutation p), .cperm p]
       = .ok (cid p.length)) := by
  refine ⟨?_, ?_, ?_, ?_⟩
  · rw [seriesCreate]
    rw [flattenSeries_cons_nonseries _ _ (sym_not_series s n),
        flattenSeries_cons_nonseries _ _ (sinv_not_series (.sym s n)),
        flattenSeries_nil]
    rw [filterNeutralSeries_cons_keep _ _ (isSeriesNeutral_sym s n),
        filterNeutralSeries_cons_keep _ _ (isSeriesNeutral_sinv (.sym s n)),
        filterNeutralSeries_nil]
    have hmm : cdimMismatch (.sym s n) [.sym s n, .sinv (.sym s n)] = false := by
      apply cdimMismatch_false
      intro x hx
      rcases List.mem_cons.mp hx with h1 | hx2
      · rw [h1]
      · rcases List.mem_cons.mp hx2 with h1 | h1
        · rw [h1]
          rfl
        · cases h1
    show (if cdimMismatch (.sym s n) [.sym s n, .sinv (.sym s n)] = true
          then (Except.error CErr.valueError : Except CErr Circuit)
          else match seriesScan (fuel + 3) [.sym s n, .sinv (.sym s n)] with
               | .error e => .error e
               | .ok none => .ok (.series [.sym s n, .sinv (.sym s n)])
               | .ok (some newOps) => seriesCreate (fuel + 3) newOps)
        = .ok (cid n)
    rw [if_neg (by simp [hmm])]
    rw [seriesScan_pair_step, seriesPairRule_sym_sinv]
    show seriesCreate (fuel + 3) [cid n] = .ok (cid n)
    exact seriesCreate_single_cid (fuel + 2) n
  · rw [seriesCreate]
    rw [flattenSeries_cons_nonseries _ _ (sinv_not_series (.sym s n)),
        flattenSeries_cons_nonseries _ _ (sym_not_series s n),
        flattenSeries_nil]
    rw [filterNeutralSeries_cons_keep _ _ (isSeriesNeutral_sinv (.sym s n)),
        filterNeutralSeries_cons_keep _ _ (isSeriesNeutral_sym s n),
        filterNeutralSeries_nil]
    have hmm : cdimMismatch (.sinv (.sym s n)) [.sinv (.sym s n), .sym s n]
        = false := by
      apply cdimMismatch_false
      intro x hx
      rcases List.mem_cons.mp hx with h1 | hx2
      · rw [h1]
      · rcases List.mem_cons.mp hx2 with h1 | h1
        · rw [h1]
          rfl
        · cases h1
    show (if cdimMismatch (.sinv (.sym s n)) [.sinv (.sym s n), .sym s n] = true
          then (Except.error CErr.valueError : Except CErr Circuit)
          else match seriesScan (fuel + 3) [.sinv (.sym s n), .sym s n] with
               | .error e => .error e
               | .ok none => .ok (.series [.sinv (.sym s n), .sym s n])
               | .ok (some newOps) => seriesCreate (fuel + 3) newOps)
        = .ok (cid n)
    rw [if_neg (by simp [hmm])]
    rw [seriesScan_pair_step, seriesPairRule_sinv_sym]
    show seriesCreate (fuel + 3) [cid n] = .ok (cid n)
    exact seriesCreate_single_cid (fuel + 2) n
  · rw [seriesCreate]
    rw [flattenSeries_cons_nonseries _ _ (cperm_not_series p),
        flattenSeries_cons_nonseries _ _ (cperm_not_series (invertPermutation p)),
        flattenSeries_nil]
    rw [filterNeutralSeries_cons_keep _ _ (isSeriesNeutral_cperm p),
        filterNeutralSeries_cons_keep _ _ (isSeriesNeutral_cperm (invertPermutation p)),
        filterNeutralSeries_nil]
    have hmm : cdimMismatch (.cperm p) [.cperm p, .cperm (invertPermutation p)]
        = false := by
      apply cdimMismatch_false
      intro x hx
      rcases List.mem_cons.mp hx with h1 | hx2
      · rw [h1]
      · rcases List.mem_cons.mp hx2 with h1 | h1
        · rw [h1]
          show (invertPermutation p).length = p.length
          exact invertPermutation_length p
        · cases h1
    show (if cdimMismatch (.cperm p) [.cperm p, .cperm (invertPermutation p)] = true
          then (Except.error CErr.valueError : Except CErr Circuit)
          else match seriesScan (fuel + 3) [.cperm p, .cperm (invertPermutation p)] with
               | .error e => .error e
               | .ok none => .ok (.series [.cperm p, .cperm (invertPermutation p)])
               | .ok (some newOps) => seriesCreate (fuel + 3) newOps)
        = .ok (cid p.length)
    rw [if_neg (by simp [hmm])]
    rw [seriesScan_pair_step, seriesPairRule_cperm]
    rw [composePerm_self_inv p hp, permCreate_range]
    show seriesCreate (fuel + 3) [cid p.length] = .ok (cid p.length)
    exact seriesCreate_single_cid (fuel + 2) p.length
  · rw [seriesCreate]
    rw [flattenSeries_cons_nonseries _ _ (cperm_not_series (invertPermutation p)),
        flattenSeries_cons_nonseries _ _ (cperm_not_series p),
        flattenSeries_nil]
    rw [filterNeutralSeries_cons_keep _ _ (isSeriesNeutral_cperm (invertPermutation p)),
        filterNeutralSeries_cons_keep _ _ (isSeriesNeutral_cperm p),
        filterNeutralSeries_nil]
    have hmm : cdimMismatch (.cperm (invertPermutation p)) [.cperm (invertPermutation p), .cperm p]
        = false := by
      apply cdimMismatch_false
      intro x hx
      rcases List.mem_cons.mp hx with h1 | hx2
      · rw [h1]
      · rcases List.mem_cons.mp hx2 with h1 | h1
        · rw [h1]
          show p.length = (invertPermutation p).length
          exact (invertPermutation_length p).symm
        · cases h1
    show (if cdimMismatch (.cperm (invertPermutation p)) [.cperm (invertPermutation p), .cperm p] = true
          then (Except.error CErr.valueError : Except CErr Circuit)
          else match seriesScan (fuel + 3) [.cperm (invertPermutation p), .cperm p] with
               | .error e => .error e
               | .ok none => .ok (.series [.cperm (invertPermutation p), .cperm p])
               | .ok (some newOps) => seriesCreate (fuel + 3) newOps)
        = .ok (cid p.length)
    rw [if_neg (by simp [hmm])]
    rw [seriesScan_pair_step, seriesPairRule_cperm]
    rw [composePerm_inv_self p hp, permCreate_range]
    show seriesCreate (fuel + 3) [cid p.length] = .ok (cid p.length)
    exact seriesCreate_single_cid (fuel + 2) p.length

theorem c1_witness :
    checkPermutation [1, 0] = true ∧
    (seriesCreate (56 + 4) [.sym "A" 2, .sinv (.sym "A" 2)] = .ok (cid 2)) ∧
    (seriesCreate (56 + 4) [.cperm [1, 0], .cperm (invertPermutation [1, 0])]
       = .ok (cid 2)) := by
  have h := c1_amended_inverse_collapse "A" 2 56 [1, 0] (by decide)
  exact ⟨by decide, h.1, h.2.2.1⟩

theorem getBlocks_sym (fuel : ℕ) (a : String) (n : ℕ) :
    getBlocks (fuel + 1) (.sym a n) [n] = .ok [.sym a n] := by
  show (if [n] = blockStructure (.sym a n)
        then (Except.ok [Circuit.sym a n] : Except CErr (List Circuit))
        else .error .incompatibleBlocks) = .ok [.sym a n]
  rw [if_pos (show [n] = blockStructure (Circuit.sym a n) from rfl)]

theorem takeGroup_single (bl : ℕ) (c : Circuit) (rest : List Circuit)
    (hc : c.cdim = bl) (hpos : 0 < bl) :
    takeGroup bl 0 [] (c :: rest) = .ok ([c], rest) := by
  show (if (0 : ℕ) < bl then
          takeGroup bl (0 + c.cdim) ([] ++ [c]) rest
        else if (0 : ℕ) = bl then Except.ok (([] : List Circuit), c :: rest)
        else Except.error CErr.incompatibleBlocks) = .ok ([c], rest)
  rw [if_pos hpos]
  rw [takeGroup.eq_def]
  show (if 0 + c.cdim < bl then
          match rest with
          | [] => Except.error CErr.stopIteration
          | d :: rest2 => takeGroup bl (0 + c.cdim + d.cdim) (([] ++ [c]) ++ [d]) rest2
        else if 0 + c.cdim = bl then Except.ok (([] ++ [c] : List Circuit), rest)
        else Except.error CErr.incompatibleBlocks) = .ok ([c], rest)
  rw [if_neg (by omega)]
  rw [if_pos (by omega)]
  rfl

theorem concatCreate_single_sym (fuel : ℕ) (a : String) (n : ℕ) :
    concatCreate (fuel + 1) [.sym a n] = .ok (.sym a n) := rfl

theorem concatCreate_sym_pair (fuel : ℕ) (a b : String) (ca cb : ℕ) :
    concatCreate (fuel + 3) [.sym a ca, .sym b cb]
      = .ok (.concat [.sym a ca, .sym b cb]) := rfl

/-- A concatenation of two SLH triples is folded by the first binary rule of
`Concatenation._binary_rules` into one block-diagonal SLH triple, which is a
single irreducible block: requesting its blocks returns the one-element
tuple holding the fold itself, not the original pair. -/
theorem c9_counterexample :
    (concatCreate 60 [.slh [[SVal.sv "a"]] [[SVal.sv "la"]] (SVal.sv "ha"),
                      .slh [[SVal.sv "b"]] [[SVal.sv "lb"]] (SVal.sv "hb")]
       = .ok (.slh [[SVal.sv "a", SVal.int 0], [SVal.int 0, SVal.sv "b"]]
           [[SVal.sv "la"], [SVal.sv "lb"]]
           (SVal.add (SVal.sv "ha") (SVal.sv "hb")))) ∧
    (blockStructure (.slh [[SVal.sv "a", SVal.int 0], [SVal.int 0, SVal.sv "b"]]
           [[SVal.sv "la"], [SVal.sv "lb"]]
           (SVal.add (SVal.sv "ha") (SVal.sv "hb"))) = [2]) ∧
    (getBlocks 60 (.slh [[SVal.sv "a", SVal.int 0], [SVal.int 0, SVal.sv "b"]]
           [[SVal.sv "la"], [SVal.sv "lb"]]
           (SVal.add (SVal.sv "ha") (SVal.sv "hb"))) [2]
       = .ok [.slh [[SVal.sv "a", SVal.int 0], [SVal.int 0, SVal.sv "b"]]
           [[SVal.sv "la"], [SVal.sv "lb"]]
           (SVal.add (SVal.sv "ha") (SVal.sv "hb"))]) := by
  refine ⟨by decide, by decide, by decide⟩

/-- C9: the channel dimension of a two-operand concatenation node is always
the sum of the operand dimensions, and for circuit symbols of positive
channel dimension — operands that no concatenation binary rule folds, so
each is irreducible at the concatenation's own block granularity — the
created `A + B` keeps both operands and `get_blocks` at its block structure
`(A.cdim, B.cdim)` returns exactly the pair `(A, B)`. -/
theorem c9_concat_cdim_blocks (a b : String) (ca cb fuel : ℕ)
    (ha : 1 ≤ ca) (hb : 1 ≤ cb) :
    (∀ A B : Circuit, (Circuit.concat [A, B]).cdim = A.cdim + B.cdim) ∧
    (concatCreate (fuel + 3) [.sym a ca, .sym b cb]
       = .ok (.concat [.sym a ca, .sym b cb])) ∧
    (blockStructure (.concat [.sym a ca, .sym b cb]) = [ca, cb]) ∧
    (getBlocks (fuel + 4) (.concat [.sym a ca, .sym b cb]) [ca, cb]
       = .ok [.sym a ca, .sym b cb]) := by
  refine ⟨?_, concatCreate_sym_pair fuel a b ca cb, rfl, ?_⟩
  · intro A B
    show A.cdim + (B.cdim + 0) = A.cdim + B.cdim
    omega
  · have hB2 : getBlocksList (fuel + 2) [.sym b cb] = .ok [.sym b cb] := by
      show ((match getBlocks (fuel + 1) (.sym b cb) (blockStructure (.sym b cb)) with
            | .error e => .error e
            | .ok bk =>
              match getBlocksList (fuel + 1) ([] : List Circuit) with
              | .error e => .error e
              | .ok rest => .ok (bk ++ rest)) : Except CErr (List Circuit))
          = .ok [.sym b cb]
      rw [show blockStructure (Circuit.sym b cb) = [cb] from rfl]
      rw [getBlocks_sym fuel b cb]
      rfl
    have hlist : getBlocksList (fuel + 3) [.sym a ca, .sym b cb]
        = .ok [.sym a ca, .sym b cb] := by
      show ((match getBlocks (fuel + 2) (.sym a ca) (blockStructure (.sym a ca)) with
            | .error e => .error e
            | .ok bk =>
              match getBlocksList (fuel + 2) [.sym b cb] with
              | .error e => .error e
              | .ok rest => .ok (bk ++ rest)) : Except CErr (List Circuit))
          = .ok [.sym a ca, .sym b cb]
      rw [show blockStructure (Circuit.sym a ca) = [ca] from rfl]
      rw [getBlocks_sym (fuel + 1) a ca]
      rw [hB2]
      rfl
    have h2 : groupBlocks (fuel + 2) [cb] [.sym b cb] = .ok [.sym b cb] := by
      show ((match takeGroup cb 0 [] [.sym b cb] with
            | .error e => .error e
            | .ok (group, rest) =>
              match concatCreate (fuel + 1) group with
              | .error e => .error e
              | .ok blk =>
                match groupBlocks (fuel + 1) ([] : List ℕ) rest with
                | .error e => .error e
                | .ok more => .ok (blk :: more)) : Except CErr (List Circuit))
          = .ok [.sym b cb]
      rw [takeGroup_single cb (.sym b cb) [] rfl hb]
      show ((match groupBlocks (fuel + 1) ([] : List ℕ) ([] : List Circuit) with
            | .error e => .error e
            | .ok more => .ok (Circuit.sym b cb :: more)) : Except CErr (List Circuit))
          = .ok [.sym b cb]
      rfl
    have hgroup : groupBlocks (fuel + 3) [ca, cb] [.sym a ca, .sym b cb]
        = .ok [.sym a ca, .sym b cb] := by
      show ((match takeGroup ca 0 [] [.sym a ca, .sym b cb] with
            | .error e => .error e
            | .ok (group, rest) =>
              match concatCreate (fuel + 2) group with
              | .error e => .error e
              | .ok blk =>
                match groupBlocks (fuel + 2) [cb] rest with
                | .error e => .error e
                | .ok more => .ok (blk :: more)) : Except CErr (List Circuit))
          = .ok [.sym a ca, .sym b cb]
      rw [takeGroup_single ca (.sym a ca) [.sym b cb] rfl ha]
      show ((match groupBlocks (fuel + 2) [cb] [.sym b cb] with
            | .error e => .error e
            | .ok more => .ok (Circuit.sym a ca :: more)) : Except CErr (List Circuit))
          = .ok [.sym a ca, .sym b cb]
      rw [h2]
    show ((match getBlocksList (fuel + 3) [.sym a ca, .sym b cb] with
          | .error e => .error e
          | .ok avail => groupBlocks (fuel + 3) [ca, cb] avail) :
            Except CErr (List Circuit))
        = .ok [.sym a ca, .sym b cb]
    rw [hlist]
    show groupBlocks (fuel + 3) [ca, cb] [.sym a ca, .sym b cb]
        = .ok [.sym a ca, .sym b cb]
    exact hgroup

theorem c9_witness :
    1 ≤ 1 ∧ 1 ≤ 2 ∧
    (concatCreate (57 + 3) [.sym "A" 1, .sym "B" 2]
       = .ok (.concat [.sym "A" 1, .sym "B" 2])) ∧
    (getBlocks (56 + 4) (.concat [.sym "A" 1, .sym "B" 2]) [1, 2]
       = .ok [.sym "A" 1, .sym "B" 2]) := by
  have h := c9_concat_cdim_blocks "A" "B" 1 2 56 (by decide) (by decide)
  exact ⟨by decide, by decide, h.2.1, h.2.2.2⟩

end QNET
